import Mathlib

/-!
# Shard server lifecycle (`sharding/server.go`)

A shallow embedding of `NewServer`, `ShardServer.Run`, `ShardServer.reload`,
`ShardServer.shutdown0` and `ShardServer.Shutdown`.

* The server struct is a record; the methods pass it explicitly together with a
  `World`, which holds the answers the operating system and the storage engine will
  give to the calls the code makes, and the list of calls made so far.
* A Go `panic`, a `Lock` on a held mutex and an accept loop that has not finished are
  explicit results (`Outcome`).
* Each method is followed as one goroutine. The workers started by `go worker.Run()` are
  recorded in the trace; their code is not in `server.go`, and what they or other
  goroutines do to the shared server while a method runs is not modelled.
* Go strings are modelled by Lean strings; `path.Clean` only ever tests for the ASCII
  bytes `/` and `.`, so working on characters instead of bytes changes nothing.
-/

namespace Sharding

/-! ## Go library functions used by `NewServer` -/

/-- Go `strconv.Itoa`: base-10 text of an integer, with a leading `-` when negative. -/
def Itoa (i : Int) : String :=
  if i < 0 then "-" ++ Nat.repr i.natAbs else Nat.repr i.natAbs

/-- Inner loop of the `..` case of `path.Clean`, entered after the first `out.w--`:
`for out.w > dotdot && out.index(out.w) != '/' { out.w-- }`. Returns the final `out.w`. -/
def backtrack (buf : List Char) (dotdot : Nat) : Nat → Nat
  | 0 => 0
  | w + 1 =>
    if w + 1 > dotdot ∧ buf.get? (w + 1) ≠ some '/' then backtrack buf dotdot w else w + 1

/-- Main loop `for r < n { switch ... }` of Go `path.Clean`. `rest` is `path[r:]`, `out`
is the written part of the buffer (so `out.w = out.length`); the result is the buffer
when the input is used up. Every turn consumes input, so `fuel = len(path)` is enough. -/
def cleanLoop (rooted : Bool) : Nat → List Char → List Char → Nat → List Char
  | 0, _, out, _ => out
  | _ + 1, [], out, _ => out
  | fuel + 1, c :: rest, out, dotdot =>
    if c = '/' then
      -- empty path element
      cleanLoop rooted fuel rest out dotdot
    else if c = '.' ∧ (rest = [] ∨ rest.head? = some '/') then
      -- . element
      cleanLoop rooted fuel rest out dotdot
    else if c = '.' ∧ rest.head? = some '.' ∧
        (rest.tail = [] ∨ rest.tail.head? = some '/') then
      -- .. element: remove to last /
      if out.length > dotdot then
        cleanLoop rooted fuel rest.tail (out.take (backtrack out dotdot (out.length - 1))) dotdot
      else if !rooted then
        let out2 := (if out.length > 0 then out ++ ['/'] else out) ++ ['.', '.']
        cleanLoop rooted fuel rest.tail out2 out2.length
      else
        cleanLoop rooted fuel rest.tail out dotdot
    else
      -- real path element: add slash if needed, copy element
      let out1 :=
        if (rooted = true ∧ out.length ≠ 1) ∨ (rooted = false ∧ out.length ≠ 0) then
          out ++ ['/']
        else out
      cleanLoop rooted fuel ((c :: rest).dropWhile (· ≠ '/'))
        (out1 ++ (c :: rest).takeWhile (· ≠ '/')) dotdot

/-- Go `path.Clean`. -/
def Clean (path : String) : String :=
  if path = "" then "."
  else
    let cs := path.data
    let out :=
      if cs.head? = some '/' then cleanLoop true cs.length cs.tail ['/'] 1
      else cleanLoop false cs.length cs [] 0
    if out.length = 0 then "." else String.mk out

/-- Go `path.Join`: empty leading elements are skipped, the rest is joined with `/`
and cleaned; if every element is empty the result is the empty string. -/
def Join : List String → String
  | [] => ""
  | e :: es => if e = "" then Join es else Clean (String.intercalate "/" (e :: es))

/-- The buffer of `path.Clean` after the "real path element" case has copied the
element `d`: a slash is added first unless the buffer is empty (or is the root slash). -/
def appendElem (rooted : Bool) (out d : List Char) : List Char :=
  (if (rooted = true ∧ out.length ≠ 1) ∨ (rooted = false ∧ out.length ≠ 0) then
     out ++ ['/']
   else out) ++ d

/-! ## Data model -/

/-- A Go `error` value (non-nil), identified by its message. -/
structure Error where
  msg : String
  deriving DecidableEq, Repr

/-- A `*db.DB` handle (non-nil), identified by the object it points to. -/
structure DB where
  id : Nat
  deriving DecidableEq, Repr

/-- A bound `net.Listener` (non-nil). -/
structure Listener where
  id : Nat
  deriving DecidableEq, Repr

/-- An accepted `net.Conn`. -/
structure Conn where
  id : Nat
  deriving DecidableEq, Repr

/-- Modelled from the spec: the `Schema` type is declared outside `server.go`, which reads
its `rev` field and calls `refresh`. The spec describes a mirror of the database layout
"refreshed from the embedded engine" that "carries a monotonically increasing revision
number". `rev` is the revision, `source` the handle the mirror was last rebuilt from
(`none` for `new(Schema)`). -/
structure Schema where
  rev : Int
  source : Option DB
  deriving DecidableEq, Repr

/-- Modelled from the spec: `Schema.refresh` is not in `server.go`. The spec says that it
"rebuilds the schema mirror from" the database handle, "incrementing its revision", and
that the revision is an "integer, incremented each time the mirror is rebuilt". -/
def Schema.refresh (schema : Schema) (db : Option DB) : Schema :=
  { rev := schema.rev + 1, source := db }

/-- Go `const SOCK_FILE_SUFFIX`. -/
def SOCK_FILE_SUFFIX : String := "_sock"

/-- Go `type ShardServer struct`. `srvSock` and `db` are `none` when nil. `opLock` points to
a mutex allocated by `NewServer`; the field records whether that mutex is held.
`clientIDSeq` and `maintByClient` are `uint64`, `pendingTransactions` is `int64`. -/
structure ShardServer where
  rank : Int
  nProcs : Int
  workspace : String
  dbPath : String
  sockPath : String
  srvSock : Option Listener
  db : Option DB
  clientIDSeq : Nat
  maintByClient : Nat
  opLock : Bool
  shutdown : Bool
  pendingTransactions : Int
  schema : Schema
  deriving DecidableEq, Repr

/-- Go `type ShardServerWorker struct`. `srv` is the server the worker was created by (shared,
not copied), `in` and `out` are buffers over `sock`, and `lastErr` starts nil; the record
keeps the fields that `Run` chooses. -/
structure ShardServerWorker where
  id : Nat
  sock : Conn
  pendingTransaction : Bool
  pendingMaintenance : Bool
  deriving DecidableEq, Repr

/-- Calls that leave the server object, in the order they are made. -/
inductive Event where
  | osRemove (path : String)
  | dbClose (h : DB)
  | openDB (path : String)
  | schemaRefresh (h : Option DB)
  | netListen (network address : String)
  | accept (l : Listener)
  | goWorkerRun (worker : ShardServerWorker)
  | sockClose (l : Listener)
  | noticef (format : String)
  | infof (format : String)
  deriving DecidableEq, Repr

/-- The environment of a server. `dbCloseRes i`, `openDBRes i`, ... are the results of the
`i`-th call from now of `(*db.DB).Close`, `db.OpenDB`, `net.Listen`, `Listener.Accept` and
`Listener.Close`; `trace` is the calls made so far, oldest first. `db.OpenDB` is declared
outside `server.go`, so its two results are kept as Go returns them (a handle that may be
nil, an error that may be nil). -/
structure World where
  dbCloseRes : Nat → Option Error
  openDBRes : Nat → Option DB × Option Error
  listenRes : Nat → Except Error Listener
  acceptRes : Nat → Except Error Conn
  sockCloseRes : Nat → Option Error
  trace : List Event

/-- Append a call to the trace. -/
def World.emit (w : World) (e : Event) : World :=
  { w with trace := w.trace ++ [e] }

/-- Go `srv.db.Close()` on handle `h`. -/
def World.dbClose (w : World) (h : DB) : Option Error × World :=
  (w.dbCloseRes 0,
   { w with dbCloseRes := fun i => w.dbCloseRes (i + 1), trace := w.trace ++ [Event.dbClose h] })

/-- Go `db.OpenDB(path)`. -/
def World.openDB (w : World) (path : String) : (Option DB × Option Error) × World :=
  (w.openDBRes 0,
   { w with openDBRes := fun i => w.openDBRes (i + 1), trace := w.trace ++ [Event.openDB path] })

/-- Go `net.Listen(network, address)`. -/
def World.netListen (w : World) (network address : String) : Except Error Listener × World :=
  (w.listenRes 0,
   { w with listenRes := fun i => w.listenRes (i + 1),
            trace := w.trace ++ [Event.netListen network address] })

/-- Go `l.Accept()`. -/
def World.accept (w : World) (l : Listener) : Except Error Conn × World :=
  (w.acceptRes 0,
   { w with acceptRes := fun i => w.acceptRes (i + 1), trace := w.trace ++ [Event.accept l] })

/-- Go `l.Close()` on a listener. -/
def World.sockClose (w : World) (l : Listener) : Option Error × World :=
  (w.sockCloseRes 0,
   { w with sockCloseRes := fun i => w.sockCloseRes (i + 1),
            trace := w.trace ++ [Event.sockClose l] })

/-- The value a Go `panic` carries. -/
inductive PanicValue where
  | err (e : Error)
  | nilDereference
  deriving DecidableEq, Repr

/-- How a call ends: it returns a value, it panics, it waits for a mutex that is held, or
(accept loop only) it is still looping when the fuel is used up. Each case carries the
server and the world at that point. -/
inductive Outcome (α : Type) where
  | returned (val : α) (srv : ShardServer) (w : World)
  | panicked (v : PanicValue) (srv : ShardServer) (w : World)
  | blocked (srv : ShardServer) (w : World)
  | running (srv : ShardServer) (w : World)

/-! ## The functions of `server.go` -/

/-- Go `func NewServer(rank, nProcs int, workspace string) (srv *ShardServer)`. -/
def NewServer (rank nProcs : Int) (workspace : String) : ShardServer :=
  { rank := rank
    nProcs := nProcs
    workspace := workspace
    dbPath := Join [workspace, Itoa rank]
    sockPath := Join [workspace, Itoa rank ++ SOCK_FILE_SUFFIX]
    srvSock := none
    db := none
    clientIDSeq := 0
    maintByClient := 0
    opLock := false
    shutdown := false
    pendingTransactions := 0
    schema := { rev := 0, source := none } }

/-- Go `func (srv *ShardServer) reload()`. -/
def reload (srv : ShardServer) (w : World) : Outcome Unit :=
  let w1 :=
    match srv.db with
    | some h =>
      match w.dbClose h with
      | (some _, w') =>
        w'.emit (Event.noticef "Server %d: failed to close DB before reloading - %v")
      | (none, w') => w'
    | none => w
  match w1.openDB srv.dbPath with
  | ((newDB, some e), w2) => Outcome.panicked (PanicValue.err e) { srv with db := newDB } w2
  | ((newDB, none), w2) =>
    let srv1 := { srv with db := newDB }
    let srv2 := { srv1 with schema := srv1.schema.refresh srv1.db }
    Outcome.returned () srv2
      ((w2.emit (Event.schemaRefresh srv1.db)).emit
        (Event.infof "Server %d: schema reloaded to revision %d"))

/-- Go `atomic.AddUint64(&srv.clientIDSeq, 1)`: the new value, wrapping at `2^64`. -/
def addUint64 (x delta : Nat) : Nat := (x + delta) % 2 ^ 64

/-- The accept loop `for { ... }` of `Run`. One unit of fuel is one turn of the loop;
`Accept` on a nil listener is a nil dereference. -/
def acceptLoop : Nat → ShardServer → World → Outcome (Option Error)
  | 0, srv, w => Outcome.running srv w
  | fuel + 1, srv, w =>
    match srv.srvSock with
    | none => Outcome.panicked PanicValue.nilDereference srv w
    | some l =>
      match w.accept l with
      | (Except.error _, w1) =>
        Outcome.returned none srv (w1.emit (Event.noticef "Server %d: is closing down - %v"))
      | (Except.ok conn, w1) =>
        let newID := addUint64 srv.clientIDSeq 1
        let srv1 := { srv with clientIDSeq := newID }
        let worker : ShardServerWorker :=
          { id := newID, sock := conn, pendingTransaction := false, pendingMaintenance := false }
        acceptLoop fuel srv1 (w1.emit (Event.goWorkerRun worker))

/-- The statements of `Run` that follow `srv.reload()`, given how that call ended.
`net.Listen` returns a nil listener together with its error, and that nil is what the
assignment stores in `srv.srvSock`. A panic in `reload` is not recovered. -/
def runAfterReload (fuel : Nat) : Outcome Unit → Outcome (Option Error)
  | Outcome.returned _ srv1 w1 =>
    match w1.netListen "unix" srv1.sockPath with
    | (Except.error e, w2) => Outcome.returned (some e) { srv1 with srvSock := none } w2
    | (Except.ok l, w2) =>
      acceptLoop fuel { srv1 with srvSock := some l }
        (w2.emit (Event.noticef "Server %d: is listening on %s"))
  | Outcome.panicked v srv1 w1 => Outcome.panicked v srv1 w1
  | Outcome.blocked srv1 w1 => Outcome.blocked srv1 w1
  | Outcome.running srv1 w1 => Outcome.running srv1 w1

/-- Go `func (srv *ShardServer) Run() (err error)`: `os.Remove(srv.sockPath)`, then
`srv.reload()`, then the bind and the accept loop. -/
def Run (fuel : Nat) (srv : ShardServer) (w : World) : Outcome (Option Error) :=
  runAfterReload fuel (reload srv (w.emit (Event.osRemove srv.sockPath)))

/-- Go `func (srv *ShardServer) shutdown0()`. Calling `Close` on a nil listener is a nil
dereference. -/
def shutdown0 (srv : ShardServer) (w : World) : Outcome Unit :=
  match srv.srvSock with
  | none => Outcome.panicked PanicValue.nilDereference srv w
  | some l =>
    match w.sockClose l with
    | (some _, w1) =>
      Outcome.returned () { srv with shutdown := true }
        (w1.emit (Event.noticef "Server %d: failed to close server socket - %v"))
    | (none, w1) => Outcome.returned () { srv with shutdown := true } w1

/-- Go `func (srv *ShardServer) Shutdown()`. The unlock is not deferred, so it is reached
only when `shutdown0` returns. -/
def Shutdown (srv : ShardServer) (w : World) : Outcome Unit :=
  if srv.opLock then Outcome.blocked srv w
  else
    match shutdown0 { srv with opLock := true } w with
    | Outcome.returned _ srv1 w1 => Outcome.returned () { srv1 with opLock := false } w1
    | other => other

/-! ## Observations on outcomes and traces -/

/-- The server as the call left it. -/
def Outcome.srv {α : Type} : Outcome α → ShardServer
  | Outcome.returned _ srv _ => srv
  | Outcome.panicked _ srv _ => srv
  | Outcome.blocked srv _ => srv
  | Outcome.running srv _ => srv

/-- The world as the call left it. -/
def Outcome.world {α : Type} : Outcome α → World
  | Outcome.returned _ _ w => w
  | Outcome.panicked _ _ w => w
  | Outcome.blocked _ w => w
  | Outcome.running _ w => w

/-- Whether the call ended in a panic. -/
def Outcome.isPanic {α : Type} : Outcome α → Bool
  | Outcome.panicked _ _ _ => true
  | _ => false

/-- Apply `f` to the server an outcome carries. -/
def Outcome.mapSrv {α : Type} (f : ShardServer → ShardServer) : Outcome α → Outcome α
  | Outcome.returned v srv w => Outcome.returned v (f srv) w
  | Outcome.panicked v srv w => Outcome.panicked v (f srv) w
  | Outcome.blocked srv w => Outcome.blocked (f srv) w
  | Outcome.running srv w => Outcome.running (f srv) w

/-- The calls made between world `w` and the later world `w2`. -/
def callsSince (w w2 : World) : List Event := w2.trace.drop w.trace.length

/-- A call of `(*db.DB).Close`. -/
def Event.isDBClose : Event → Bool
  | Event.dbClose _ => true
  | _ => false

/-- A call of `db.OpenDB`. -/
def Event.isOpenDB : Event → Bool
  | Event.openDB _ => true
  | _ => false

/-- A call of `Schema.refresh`. -/
def Event.isSchemaRefresh : Event → Bool
  | Event.schemaRefresh _ => true
  | _ => false

/-- A call of `Listener.Accept`. -/
def Event.isAccept : Event → Bool
  | Event.accept _ => true
  | _ => false

/-- A call of `Listener.Close`. -/
def Event.isSockClose : Event → Bool
  | Event.sockClose _ => true
  | _ => false

/-- The workers started by `go worker.Run()`, in the order they were created. -/
def workersOf (evs : List Event) : List ShardServerWorker :=
  evs.filterMap fun e =>
    match e with
    | Event.goWorkerRun worker => some worker
    | _ => none

/-- A world that answers every call with success, handing out the given handle,
listener and connection, except that `Accept` fails from its `k`-th call on. -/
def World.script (h : DB) (l : Listener) (c : Conn) (k : Nat) : World :=
  { dbCloseRes := fun _ => none
    openDBRes := fun _ => (some h, none)
    listenRes := fun _ => Except.ok l
    acceptRes := fun i =>
      if i < k then Except.ok c else Except.error ⟨"use of closed network connection"⟩
    sockCloseRes := fun _ => none
    trace := [] }

/-- The world of `World.script` with handle 2, listener 7 and connection 9, in which
every `Close` of a database handle fails. -/
def World.closeFails : World :=
  { World.script ⟨2⟩ ⟨7⟩ ⟨9⟩ 0 with
    dbCloseRes := fun _ => some ⟨"bad file descriptor"⟩ }

/-- The same world, in which instead every `db.OpenDB` fails. -/
def World.openFails : World :=
  { World.script ⟨2⟩ ⟨7⟩ ⟨9⟩ 0 with
    openDBRes := fun _ => (none, some ⟨"no such directory"⟩) }

/-- The same world, in which instead every `net.Listen` fails. -/
def World.bindFails : World :=
  { World.script ⟨2⟩ ⟨7⟩ ⟨9⟩ 0 with
    listenRes := fun _ => Except.error ⟨"address already in use"⟩ }

/-- The same world, in which instead every `Close` of a listener fails. -/
def World.sockCloseFails : World :=
  { World.script ⟨2⟩ ⟨7⟩ ⟨9⟩ 0 with
    sockCloseRes := fun _ => some ⟨"use of closed network connection"⟩ }

/-- The calls one `reload` makes, in order, given the old handle, the path and the
results of `Close` and `OpenDB`. -/
def reloadCalls (srv : ShardServer) (w : World) : List Event :=
  (match srv.db with
    | some h =>
      Event.dbClose h ::
        (match w.dbCloseRes 0 with
          | some _ => [Event.noticef "Server %d: failed to close DB before reloading - %v"]
          | none => [])
    | none => []) ++
  Event.openDB srv.dbPath ::
    (match (w.openDBRes 0).2 with
      | some _ => []
      | none =>
        [Event.schemaRefresh (w.openDBRes 0).1,
         Event.infof "Server %d: schema reloaded to revision %d"])

/-! ## Maintenance lock -/

/-- Go `atomic.CompareAndSwapUint64(addr, old, new)` on a cell holding `cur`: whether the
swap happened, and the contents of the cell afterwards. -/
def compareAndSwapUint64 (cur old new : Nat) : Bool × Nat :=
  if cur = old then (true, new) else (false, cur)

/-- Modelled from the spec: the worker code that claims the maintenance lock is not in
`server.go`. The spec says a worker "must first atomically claim `maintenanceOwner` by
comparing it to 0 and setting it to its own id", and that a failed claim is reported to
the client "rather than blocking". A claim that succeeded is remembered in the worker's
`pendingMaintenance`. Returns whether the claim succeeded. -/
def claimMaintenance (srv : ShardServer) (worker : ShardServerWorker) :
    Bool × ShardServer × ShardServerWorker :=
  match compareAndSwapUint64 srv.maintByClient 0 worker.id with
  | (true, owner) =>
    (true, { srv with maintByClient := owner }, { worker with pendingMaintenance := true })
  | (false, _) => (false, srv, worker)

/-- Modelled from the spec: the worker code that releases the maintenance lock is not in
`server.go`. The spec says "a worker releases every claim it holds (`pendingMaintenance`
→ clear owner)" and that the worker "clears `maintenanceOwner` back to 0". -/
def releaseMaintenance (srv : ShardServer) (worker : ShardServerWorker) :
    ShardServer × ShardServerWorker :=
  if worker.pendingMaintenance then
    ({ srv with maintByClient := 0 }, { worker with pendingMaintenance := false })
  else (srv, worker)

/-- Modelled from the spec: one atomic step of one worker (a claim attempt or a release),
named by the position of the worker among the workers. -/
inductive MaintOp where
  | claim (i : Nat)
  | release (i : Nat)
  deriving DecidableEq, Repr

/-- A server together with the workers that share it. -/
structure MaintState where
  srv : ShardServer
  workers : List ShardServerWorker
  deriving DecidableEq, Repr

/-- Modelled from the spec: the effect of one atomic step on the shared server and on the
worker that takes it; a step of a worker that does not exist does nothing. -/
def maintStep (st : MaintState) : MaintOp → MaintState
  | MaintOp.claim i =>
    match st.workers.get? i with
    | none => st
    | some worker =>
      { srv := (claimMaintenance st.srv worker).2.1
        workers := st.workers.set i (claimMaintenance st.srv worker).2.2 }
  | MaintOp.release i =>
    match st.workers.get? i with
    | none => st
    | some worker =>
      { srv := (releaseMaintenance st.srv worker).1
        workers := st.workers.set i (releaseMaintenance st.srv worker).2 }

/-- Modelled from the spec: an interleaving of the steps of concurrent workers, run from
left to right. -/
def maintRun : List MaintOp → MaintState → MaintState
  | [], st => st
  | op :: ops, st => maintRun ops (maintStep st op)

/-- The invariant of the maintenance lock: every worker that remembers a claim is the
owner recorded in the server. -/
def MaintState.ownerIsHolder (st : MaintState) : Prop :=
  ∀ i worker, st.workers.get? i = some worker → worker.pendingMaintenance = true →
    st.srv.maintByClient = worker.id

/-! # Theorems -/

/-! ## `path.Clean` and `path.Join` -/

/-- The loop stops when the input is used up. -/
theorem cleanLoop_nil (rooted : Bool) (fuel : Nat) (out : List Char) (dotdot : Nat) :
    cleanLoop rooted fuel [] out dotdot = out := by
  cases fuel <;> rfl

/-- One turn of the loop. -/
theorem cleanLoop_cons (rooted : Bool) (fuel : Nat) (c : Char) (rest out : List Char)
    (dotdot : Nat) :
    cleanLoop rooted (fuel + 1) (c :: rest) out dotdot =
      if c = '/' then cleanLoop rooted fuel rest out dotdot
      else if c = '.' ∧ (rest = [] ∨ rest.head? = some '/') then
        cleanLoop rooted fuel rest out dotdot
      else if c = '.' ∧ rest.head? = some '.' ∧
          (rest.tail = [] ∨ rest.tail.head? = some '/') then
        if out.length > dotdot then
          cleanLoop rooted fuel rest.tail
            (out.take (backtrack out dotdot (out.length - 1))) dotdot
        else if !rooted then
          cleanLoop rooted fuel rest.tail
            ((if out.length > 0 then out ++ ['/'] else out) ++ ['.', '.'])
            ((if out.length > 0 then out ++ ['/'] else out) ++ ['.', '.']).length
        else
          cleanLoop rooted fuel rest.tail out dotdot
      else
        cleanLoop rooted fuel ((c :: rest).dropWhile (· ≠ '/'))
          ((if (rooted = true ∧ out.length ≠ 1) ∨ (rooted = false ∧ out.length ≠ 0) then
              out ++ ['/']
            else out) ++ (c :: rest).takeWhile (· ≠ '/')) dotdot := by
  rw [cleanLoop]

/-- Copying an element stops at the next slash. -/
theorem takeWhile_append_slash (a b : List Char) :
    (a ++ '/' :: b).takeWhile (· ≠ '/') = a.takeWhile (· ≠ '/') := by
  induction a with
  | nil => simp
  | cons x a ih =>
    simp only [List.cons_append, List.takeWhile_cons, ih]

/-- After an element is copied, the input continues at the next slash. -/
theorem dropWhile_append_slash (a b : List Char) :
    (a ++ '/' :: b).dropWhile (· ≠ '/') = a.dropWhile (· ≠ '/') ++ '/' :: b := by
  induction a with
  | nil => simp
  | cons x a ih =>
    simp only [List.cons_append, List.dropWhile_cons, ih]
    split <;> rfl

/-- An element without a slash is copied whole. -/
theorem takeWhile_no_slash (d : List Char) (hd : ∀ x ∈ d, x ≠ '/') :
    d.takeWhile (· ≠ '/') = d ∧ d.dropWhile (· ≠ '/') = [] := by
  induction d with
  | nil => simp
  | cons x d ih =>
    have hx : x ≠ '/' := hd x (List.mem_cons_self _ _)
    obtain ⟨h1, h2⟩ := ih (fun y hy => hd y (List.mem_cons_of_mem _ hy))
    have hp : decide (x ≠ '/') = true := by simpa using hx
    simp only [List.takeWhile_cons, List.dropWhile_cons, hp, if_true, h1, h2, and_self]

/-- Copying an element leaves input no longer than before. -/
theorem dropWhile_length_le (l : List Char) :
    (l.dropWhile (· ≠ '/')).length ≤ l.length := by
  induction l with
  | nil => simp
  | cons x l ih =>
    rw [List.dropWhile_cons]
    split
    · exact Nat.le_succ_of_le ih
    · exact Nat.le_refl _

/-- A turn of the loop on an element that is neither `.` nor `..` and runs to the end of
the input. -/
theorem cleanLoop_elem (rooted : Bool) (fuel : Nat) (c : Char) (d out : List Char)
    (dotdot : Nat) (hc1 : c ≠ '/') (hc2 : c ≠ '.') (hd : ∀ x ∈ d, x ≠ '/') :
    cleanLoop rooted (fuel + 1) (c :: d) out dotdot = appendElem rooted out (c :: d) := by
  have hall : ∀ x ∈ c :: d, x ≠ '/' := by
    intro x hx
    rcases List.mem_cons.mp hx with h | h
    · rw [h]; exact hc1
    · exact hd x h
  obtain ⟨h1, h2⟩ := takeWhile_no_slash (c :: d) hall
  rw [cleanLoop_cons, if_neg hc1, if_neg (fun h => hc2 h.1), if_neg (fun h => hc2 h.1), h1, h2,
    cleanLoop_nil]
  rfl

/-- More fuel than the input is long changes nothing. -/
theorem cleanLoop_fuel (rooted : Bool) :
    ∀ (f1 f2 : Nat) (rest out : List Char) (dotdot : Nat),
      rest.length ≤ f1 → rest.length ≤ f2 →
      cleanLoop rooted f1 rest out dotdot = cleanLoop rooted f2 rest out dotdot := by
  intro f1
  induction f1 with
  | zero =>
    intro f2 rest out dotdot h1 _
    have : rest = [] := List.length_eq_zero.mp (by omega)
    rw [this, cleanLoop_nil, cleanLoop_nil]
  | succ f1 ih =>
    intro f2 rest out dotdot h1 h2
    cases rest with
    | nil => rw [cleanLoop_nil, cleanLoop_nil]
    | cons c r =>
      obtain ⟨g, rfl⟩ : ∃ g, f2 = g + 1 := ⟨f2 - 1, by simp at h2; omega⟩
      simp only [List.length_cons] at h1 h2
      have ht : r.tail.length ≤ r.length := by simp
      have hdw : c ≠ '/' → ((c :: r).dropWhile (· ≠ '/')).length ≤ r.length := by
        intro hc
        have hp : decide (c ≠ '/') = true := by simpa using hc
        rw [List.dropWhile_cons, if_pos hp]
        exact dropWhile_length_le r
      rw [cleanLoop_cons, cleanLoop_cons]
      by_cases c1 : c = '/'
      · rw [if_pos c1, if_pos c1]
        exact ih _ _ _ _ (by omega) (by omega)
      · have := hdw c1
        rw [if_neg c1, if_neg c1]
        split_ifs <;> exact ih _ _ _ _ (by omega) (by omega)

/-- Input that continues with a slash and a last element `c :: d`, neither `.` nor `..`:
the loop treats what comes before the slash as it would on its own, and then copies the
element. -/
theorem cleanLoop_append_elem (rooted : Bool) (c : Char) (d : List Char)
    (hc1 : c ≠ '/') (hc2 : c ≠ '.') (hd : ∀ x ∈ d, x ≠ '/') :
    ∀ (fuel : Nat) (a out : List Char) (dotdot : Nat), a.length + 2 ≤ fuel →
      cleanLoop rooted fuel (a ++ '/' :: c :: d) out dotdot =
        appendElem rooted (cleanLoop rooted fuel a out dotdot) (c :: d) := by
  intro fuel
  induction fuel with
  | zero => intro a out dotdot h; omega
  | succ f ih =>
    intro a out dotdot hf
    cases a with
    | nil =>
      obtain ⟨g, rfl⟩ : ∃ g, f = g + 1 := ⟨f - 1, by simp at hf; omega⟩
      rw [List.nil_append, cleanLoop_cons, if_pos rfl, cleanLoop_nil]
      exact cleanLoop_elem rooted g c d out dotdot hc1 hc2 hd
    | cons x a =>
      simp only [List.length_cons] at hf
      rw [List.cons_append, cleanLoop_cons, cleanLoop_cons]
      by_cases h1 : x = '/'
      · rw [if_pos h1, if_pos h1]
        exact ih a out dotdot (by omega)
      · rw [if_neg h1, if_neg h1]
        by_cases h2 : x = '.' ∧ (a = [] ∨ a.head? = some '/')
        · have h2b : x = '.' ∧
              (a ++ '/' :: c :: d = [] ∨ (a ++ '/' :: c :: d).head? = some '/') := by
            refine ⟨h2.1, Or.inr ?_⟩
            rcases h2.2 with h | h
            · rw [h]; rfl
            · cases a with
              | nil => rfl
              | cons y t => exact h
          rw [if_pos h2b, if_pos h2]
          exact ih a out dotdot (by omega)
        · have h2b : ¬(x = '.' ∧
              (a ++ '/' :: c :: d = [] ∨ (a ++ '/' :: c :: d).head? = some '/')) := by
            rintro ⟨hx, h⟩
            apply h2
            refine ⟨hx, ?_⟩
            cases a with
            | nil => exact Or.inl rfl
            | cons y t =>
              rcases h with h | h
              · simp at h
              · exact Or.inr h
          rw [if_neg h2b, if_neg h2]
          by_cases h3 : x = '.' ∧ a.head? = some '.' ∧ (a.tail = [] ∨ a.tail.head? = some '/')
          · obtain ⟨y, t, rfl⟩ : ∃ y t, a = y :: t := by
              cases a with
              | nil => simp at h3
              | cons y t => exact ⟨y, t, rfl⟩
            have h3b : x = '.' ∧ (y :: t ++ '/' :: c :: d).head? = some '.' ∧
                ((y :: t ++ '/' :: c :: d).tail = [] ∨
                  (y :: t ++ '/' :: c :: d).tail.head? = some '/') := by
              refine ⟨h3.1, h3.2.1, Or.inr ?_⟩
              rcases h3.2.2 with h | h
              · simp only [List.tail_cons] at h
                rw [h]; rfl
              · cases t with
                | nil => rfl
                | cons z u => exact h
            have htl : (y :: t ++ '/' :: c :: d).tail = (y :: t).tail ++ '/' :: c :: d := rfl
            have hlen : (y :: t).tail.length + 2 ≤ f := by
              simp only [List.tail_cons, List.length_cons] at hf ⊢
              omega
            rw [if_pos h3b, if_pos h3, htl]
            split_ifs <;> exact ih _ _ _ hlen
          · have h3b : ¬(x = '.' ∧ (a ++ '/' :: c :: d).head? = some '.' ∧
                ((a ++ '/' :: c :: d).tail = [] ∨
                  (a ++ '/' :: c :: d).tail.head? = some '/')) := by
              rintro ⟨hx, hh, ht⟩
              apply h3
              cases a with
              | nil => simp at hh
              | cons y t =>
                refine ⟨hx, hh, ?_⟩
                cases t with
                | nil => exact Or.inl rfl
                | cons z u =>
                  rcases ht with h | h
                  · simp at h
                  · exact Or.inr h
            rw [if_neg h3b, if_neg h3, ← List.cons_append, takeWhile_append_slash,
              dropWhile_append_slash]
            have hp : decide (x ≠ '/') = true := by simpa using h1
            have hlen : ((x :: a).dropWhile (· ≠ '/')).length + 2 ≤ f := by
              rw [List.dropWhile_cons, if_pos hp]
              have := dropWhile_length_le a
              omega
            exact ih _ _ _ hlen

/-- The value of `path.Clean` on a non-empty path, in terms of the loop. -/
theorem Clean_of_data (path : String) (x : Char) (t : List Char) (h : path.data = x :: t) :
    Clean path =
      if (if x = '/' then cleanLoop true (t.length + 1) t ['/'] 1
          else cleanLoop false (t.length + 1) (x :: t) [] 0).length = 0 then "."
      else String.mk (if x = '/' then cleanLoop true (t.length + 1) t ['/'] 1
          else cleanLoop false (t.length + 1) (x :: t) [] 0) := by
  have hne : path ≠ "" := by
    intro h2
    rw [h2] at h
    simp at h
  unfold Clean
  rw [if_neg hne]
  simp only [h, List.head?_cons, Option.some.injEq, List.tail_cons, List.length_cons]

/-- Cleaning leaves a single element that is neither `.` nor `..` as it is. -/
theorem Clean_elem (d : String) (c : Char) (t : List Char) (hd : d.data = c :: t)
    (hc1 : c ≠ '/') (hc2 : c ≠ '.') (ht : ∀ x ∈ t, x ≠ '/') : Clean d = d := by
  rw [Clean_of_data d c t hd, if_neg hc1, cleanLoop_elem false _ c t [] 0 hc1 hc2 ht]
  have : appendElem false [] (c :: t) = c :: t := by simp [appendElem]
  rw [this, if_neg (by simp)]
  exact String.ext (by rw [hd])

/-- Cleaning leaves `workspace/d` as it is when `workspace` is clean, is neither `.`
nor `/`, and `d` is a single element that is neither `.` nor `..`. -/
theorem Clean_append_elem (ws d : String) (c : Char) (t : List Char) (hd : d.data = c :: t)
    (hc1 : c ≠ '/') (hc2 : c ≠ '.') (ht : ∀ x ∈ t, x ≠ '/')
    (hclean : Clean ws = ws) (hdot : ws ≠ ".") (hroot : ws ≠ "/") :
    Clean (ws ++ "/" ++ d) = ws ++ "/" ++ d := by
  have hfull : ∀ x T, ws.data = x :: T →
      (ws ++ "/" ++ d).data = x :: (T ++ '/' :: c :: t) := by
    intro x T h
    simp [String.data_append, h, hd]
  cases hW : ws.data with
  | nil =>
    have : ws = "" := String.ext hW
    rw [this] at hclean
    exact absurd hclean (by decide)
  | cons x T =>
    have hc := Clean_of_data ws x T hW
    rw [hclean] at hc
    rw [Clean_of_data _ x (T ++ '/' :: c :: t) (hfull x T hW)]
    by_cases hx : x = '/'
    · rw [if_pos hx] at hc
      rw [if_pos hx]
      have hT : T ≠ [] := by
        intro h
        apply hroot
        apply String.ext
        rw [hW, hx, h]
      have hout : cleanLoop true (T.length + 1) T ['/'] 1 = x :: T := by
        split at hc
        · exact absurd hc hdot
        · rw [hc] at hW
          exact hW
      have hrun : cleanLoop true ((T ++ '/' :: c :: t).length + 1) (T ++ '/' :: c :: t) ['/'] 1 =
          appendElem true (x :: T) (c :: t) := by
        rw [cleanLoop_append_elem true c t hc1 hc2 ht _ T ['/'] 1 (by simp),
          cleanLoop_fuel true _ (T.length + 1) T ['/'] 1 (by simp; omega) (by omega), hout]
      have happ : appendElem true (x :: T) (c :: t) = x :: (T ++ '/' :: c :: t) := by
        simp [appendElem, hT]
      rw [hrun, happ, if_neg (by simp)]
      exact String.ext (by rw [hfull x T hW])
    · rw [if_neg hx] at hc
      rw [if_neg hx]
      have hout : cleanLoop false (T.length + 1) (x :: T) [] 0 = x :: T := by
        split at hc
        · exact absurd hc hdot
        · rw [hc] at hW
          exact hW
      have hrun : cleanLoop false ((T ++ '/' :: c :: t).length + 1)
          (x :: (T ++ '/' :: c :: t)) [] 0 = appendElem false (x :: T) (c :: t) := by
        rw [← List.cons_append,
          cleanLoop_append_elem false c t hc1 hc2 ht _ (x :: T) [] 0 (by simp),
          cleanLoop_fuel false _ (T.length + 1) (x :: T) [] 0 (by simp) (by simp), hout]
      have happ : appendElem false (x :: T) (c :: t) = x :: (T ++ '/' :: c :: t) := by
        simp [appendElem]
      rw [hrun, happ, if_neg (by simp)]
      exact String.ext (by rw [hfull x T hW])

/-! ## `strconv.Itoa` and `NewServer` -/

/-- A decimal digit is neither a slash nor a dot. -/
theorem digitChar_plain (k : Nat) (hk : k < 10) :
    Nat.digitChar k ≠ '/' ∧ Nat.digitChar k ≠ '.' := by
  interval_cases k <;> exact ⟨by decide, by decide⟩

/-- The digits `Nat.toDigitsCore` puts in front of `acc` are decimal digits. -/
theorem toDigitsCore_chars (fuel : Nat) :
    ∀ (n : Nat) (acc : List Char), ∀ x ∈ Nat.toDigitsCore 10 fuel n acc,
      x ∈ acc ∨ (x ≠ '/' ∧ x ≠ '.') := by
  induction fuel with
  | zero => intro n acc x hx; exact Or.inl hx
  | succ f ih =>
    intro n acc x hx
    simp only [Nat.toDigitsCore] at hx
    split at hx
    · rcases List.mem_cons.mp hx with h | h
      · exact Or.inr (h ▸ digitChar_plain (n % 10) (Nat.mod_lt _ (by decide)))
      · exact Or.inl h
    · rcases ih _ _ x hx with h | h
      · rcases List.mem_cons.mp h with h2 | h2
        · exact Or.inr (h2 ▸ digitChar_plain (n % 10) (Nat.mod_lt _ (by decide)))
        · exact Or.inl h2
      · exact Or.inr h

/-- The function `Nat.toDigitsCore` never returns less than it was given. -/
theorem toDigitsCore_ne_nil (fuel : Nat) :
    ∀ (n : Nat) (acc : List Char), acc ≠ [] → Nat.toDigitsCore 10 fuel n acc ≠ [] := by
  induction fuel with
  | zero => intro n acc h; exact h
  | succ f ih =>
    intro n acc _
    simp only [Nat.toDigitsCore]
    split
    · simp
    · exact ih _ _ (by simp)

/-- The text of a natural number: at least one character, none a slash or a dot. -/
theorem repr_plain (n : Nat) :
    ∃ c t, (Nat.repr n).data = c :: t ∧ c ≠ '/' ∧ c ≠ '.' ∧ ∀ x ∈ t, x ≠ '/' := by
  have hdata : (Nat.repr n).data = Nat.toDigitsCore 10 (n + 1) n [] := rfl
  have hall : ∀ x ∈ Nat.toDigitsCore 10 (n + 1) n [], x ≠ '/' ∧ x ≠ '.' := by
    intro x hx
    rcases toDigitsCore_chars _ _ _ x hx with h | h
    · simp at h
    · exact h
  have hne : Nat.toDigitsCore 10 (n + 1) n [] ≠ [] := by
    simp only [Nat.toDigitsCore]
    split
    · simp
    · exact toDigitsCore_ne_nil _ _ _ (by simp)
  rw [hdata]
  cases hl : Nat.toDigitsCore 10 (n + 1) n [] with
  | nil => exact absurd hl hne
  | cons c t =>
    rw [hl] at hall
    exact ⟨c, t, rfl, (hall c (List.mem_cons_self _ _)).1, (hall c (List.mem_cons_self _ _)).2,
      fun x hx => (hall x (List.mem_cons_of_mem _ hx)).1⟩

/-- The text `strconv.Itoa` returns: at least one character, the first neither a slash
nor a dot, and no slash after it. -/
theorem Itoa_plain (i : Int) :
    ∃ c t, (Itoa i).data = c :: t ∧ c ≠ '/' ∧ c ≠ '.' ∧ ∀ x ∈ t, x ≠ '/' := by
  obtain ⟨c, t, h, hc1, hc2, ht⟩ := repr_plain i.natAbs
  unfold Itoa
  split
  · refine ⟨'-', c :: t, ?_, by decide, by decide, ?_⟩
    · rw [String.data_append, h]
      rfl
    · intro x hx
      rcases List.mem_cons.mp hx with h2 | h2
      · rw [h2]; exact hc1
      · exact ht x h2
  · exact ⟨c, t, h, hc1, hc2, ht⟩

/-- The socket file name `Itoa(rank) + SOCK_FILE_SUFFIX` is a single path element too. -/
theorem Itoa_sock_plain (i : Int) :
    ∃ c t, (Itoa i ++ SOCK_FILE_SUFFIX).data = c :: t ∧ c ≠ '/' ∧ c ≠ '.' ∧
      ∀ x ∈ t, x ≠ '/' := by
  obtain ⟨c, t, h, hc1, hc2, ht⟩ := Itoa_plain i
  refine ⟨c, t ++ SOCK_FILE_SUFFIX.data, ?_, hc1, hc2, ?_⟩
  · rw [String.data_append, h]
    rfl
  · intro x hx
    rcases List.mem_append.mp hx with h2 | h2
    · exact ht x h2
    · have : ∀ y ∈ SOCK_FILE_SUFFIX.data, y ≠ '/' := by decide
      exact this x h2

/-- The value of `path.Join` on a workspace and a non-empty file name. -/
theorem Join_pair (ws d : String) (hd : d ≠ "") :
    Join [ws, d] = if ws = "" then Clean d else Clean (ws ++ "/" ++ d) := by
  by_cases hws : ws = ""
  · simp only [Join, hws, hd, if_true, if_false]
    rfl
  · simp only [Join, hws, if_false]
    rfl

/-- C7, as amended: `NewServer` has no error path and returns a server with
`dbPath = path.Join(workspace, Itoa(rank))` and
`sockPath = path.Join(workspace, Itoa(rank) + "_sock")`. For an empty workspace these are
the bare file names, otherwise the cleaned `workspace/name`; they are the plain strings
`workspace + "/" + Itoa(rank)` and `workspace + "/" + Itoa(rank) + "_sock"` whenever the
workspace is already clean and is neither `.` nor `/`. The counters are 0, `shutdown` is
false, the lock is free, and there is no database handle and no listener. -/
theorem NewServer_fields (rank nProcs : Int) (workspace : String) :
    (NewServer rank nProcs workspace).dbPath = Join [workspace, Itoa rank] ∧
    (NewServer rank nProcs workspace).sockPath = Join [workspace, Itoa rank ++ "_sock"] ∧
    (workspace = "" →
      (NewServer rank nProcs workspace).dbPath = Itoa rank ∧
      (NewServer rank nProcs workspace).sockPath = Itoa rank ++ "_sock") ∧
    (workspace ≠ "" →
      (NewServer rank nProcs workspace).dbPath = Clean (workspace ++ "/" ++ Itoa rank) ∧
      (NewServer rank nProcs workspace).sockPath =
        Clean (workspace ++ "/" ++ (Itoa rank ++ "_sock"))) ∧
    (Clean workspace = workspace → workspace ≠ "." → workspace ≠ "/" →
      (NewServer rank nProcs workspace).dbPath = workspace ++ "/" ++ Itoa rank ∧
      (NewServer rank nProcs workspace).sockPath = workspace ++ "/" ++ Itoa rank ++ "_sock") ∧
    (NewServer rank nProcs workspace).rank = rank ∧
    (NewServer rank nProcs workspace).nProcs = nProcs ∧
    (NewServer rank nProcs workspace).workspace = workspace ∧
    (NewServer rank nProcs workspace).clientIDSeq = 0 ∧
    (NewServer rank nProcs workspace).maintByClient = 0 ∧
    (NewServer rank nProcs workspace).pendingTransactions = 0 ∧
    (NewServer rank nProcs workspace).shutdown = false ∧
    (NewServer rank nProcs workspace).opLock = false ∧
    (NewServer rank nProcs workspace).db = none ∧
    (NewServer rank nProcs workspace).srvSock = none ∧
    (NewServer rank nProcs workspace).schema = { rev := 0, source := none } := by
  obtain ⟨c, t, hd, hc1, hc2, ht⟩ := Itoa_plain rank
  obtain ⟨c2, t2, hd2, hc21, hc22, ht2⟩ := Itoa_sock_plain rank
  have hne : Itoa rank ≠ "" := by
    intro h
    rw [h] at hd
    simp at hd
  have hne2 : Itoa rank ++ SOCK_FILE_SUFFIX ≠ "" := by
    intro h
    rw [h] at hd2
    simp at hd2
  have hdb : (NewServer rank nProcs workspace).dbPath =
      if workspace = "" then Clean (Itoa rank) else Clean (workspace ++ "/" ++ Itoa rank) :=
    Join_pair workspace (Itoa rank) hne
  have hsock : (NewServer rank nProcs workspace).sockPath =
      if workspace = "" then Clean (Itoa rank ++ SOCK_FILE_SUFFIX)
      else Clean (workspace ++ "/" ++ (Itoa rank ++ SOCK_FILE_SUFFIX)) :=
    Join_pair workspace (Itoa rank ++ SOCK_FILE_SUFFIX) hne2
  refine ⟨rfl, rfl, ?_, ?_, ?_, rfl, rfl, rfl, rfl, rfl, rfl, rfl, rfl, rfl, rfl, rfl⟩
  · intro hws
    rw [hdb, hsock, if_pos hws, if_pos hws, Clean_elem _ c t hd hc1 hc2 ht,
      Clean_elem _ c2 t2 hd2 hc21 hc22 ht2]
    exact ⟨rfl, rfl⟩
  · intro hws
    rw [hdb, hsock, if_neg hws, if_neg hws]
    exact ⟨rfl, rfl⟩
  · intro hclean hdot hroot
    have hws : workspace ≠ "" := by
      intro h
      rw [h] at hclean
      exact absurd hclean (by decide)
    rw [hdb, hsock, if_neg hws, if_neg hws,
      Clean_append_elem workspace _ c t hd hc1 hc2 ht hclean hdot hroot,
      Clean_append_elem workspace _ c2 t2 hd2 hc21 hc22 ht2 hclean hdot hroot]
    refine ⟨rfl, ?_⟩
    rw [String.append_assoc (workspace ++ "/")]
    rfl

/-- Witness for C7 as amended: rank 3 in the clean workspace `/tmp/ws`, in the workspace
`/tmp/ws/` that ends in a slash, and in the empty workspace. -/
theorem NewServer_fields_witness :
    ((NewServer 3 4 "/tmp/ws").dbPath = "/tmp/ws/3" ∧
      (NewServer 3 4 "/tmp/ws").sockPath = "/tmp/ws/3_sock") ∧
    ((NewServer 3 4 "/tmp/ws/").dbPath = Clean "/tmp/ws//3" ∧
      (NewServer 3 4 "/tmp/ws/").sockPath = Clean "/tmp/ws//3_sock") ∧
    ((NewServer 3 4 "").dbPath = "3" ∧ (NewServer 3 4 "").sockPath = "3_sock") :=
  ⟨(NewServer_fields 3 4 "/tmp/ws").2.2.2.2.1 (by decide) (by decide) (by decide),
   (NewServer_fields 3 4 "/tmp/ws/").2.2.2.1 (by decide),
   (NewServer_fields 3 4 "").2.2.1 rfl⟩

/-- Counterexample to C7 as stated: with the workspace `/tmp/ws/` the paths of rank 3 are
`/tmp/ws/3` and `/tmp/ws/3_sock`, not `/tmp/ws/` + `/` + `3` and
`/tmp/ws/` + `/` + `3` + `_sock`; and with an empty workspace they are `3` and `3_sock`. -/
theorem NewServer_paths_not_concatenation :
    (NewServer 3 4 "/tmp/ws/").dbPath = "/tmp/ws/3" ∧
    (NewServer 3 4 "/tmp/ws/").dbPath ≠ "/tmp/ws/" ++ "/" ++ Itoa 3 ∧
    (NewServer 3 4 "/tmp/ws/").sockPath = "/tmp/ws/3_sock" ∧
    (NewServer 3 4 "/tmp/ws/").sockPath ≠ "/tmp/ws/" ++ "/" ++ Itoa 3 ++ "_sock" ∧
    (NewServer 3 4 "").dbPath = "3" ∧
    (NewServer 3 4 "").dbPath ≠ "" ++ "/" ++ Itoa 3 := by
  decide

/-! ## `reload` -/

/-- The world in which `reload` calls `db.OpenDB`: after the `Close` of the old handle,
if there is one. -/
theorem reload_eq (srv : ShardServer) (w : World) :
    reload srv w =
      match (w.openDBRes 0).2 with
      | some e =>
        Outcome.panicked (PanicValue.err e) { srv with db := (w.openDBRes 0).1 }
          (reload srv w).world
      | none =>
        Outcome.returned ()
          { srv with db := (w.openDBRes 0).1,
                     schema := srv.schema.refresh (w.openDBRes 0).1 }
          (reload srv w).world := by
  unfold reload
  cases hdb : srv.db with
  | none =>
    simp only [World.openDB]
    cases h2 : (w.openDBRes 0) with
    | mk a b => cases b <;> simp [Outcome.world]
  | some h =>
    simp only [World.dbClose]
    cases hc : w.dbCloseRes 0 with
    | none =>
      simp only [World.openDB]
      cases h2 : (w.openDBRes 0) with
      | mk a b => cases b <;> simp [Outcome.world]
    | some e =>
      simp only [World.openDB, World.emit]
      cases h2 : (w.openDBRes 0) with
      | mk a b => cases b <;> simp [Outcome.world]

/-- The calls `reload` adds to the trace. -/
theorem reload_trace (srv : ShardServer) (w : World) :
    (reload srv w).world.trace = w.trace ++ reloadCalls srv w := by
  unfold reload reloadCalls
  cases hdb : srv.db with
  | none =>
    simp only [World.openDB]
    cases h2 : (w.openDBRes 0) with
    | mk a b => cases b <;> simp [Outcome.world, World.emit]
  | some h =>
    simp only [World.dbClose]
    cases hc : w.dbCloseRes 0 with
    | none =>
      simp only [World.openDB]
      cases h2 : (w.openDBRes 0) with
      | mk a b => cases b <;> simp [Outcome.world, World.emit]
    | some e =>
      simp only [World.openDB, World.emit]
      cases h2 : (w.openDBRes 0) with
      | mk a b => cases b <;> simp [Outcome.world]

/-- The calls made by `reload`, read off the trace. -/
theorem reload_callsSince (srv : ShardServer) (w : World) :
    callsSince w (reload srv w).world = reloadCalls srv w := by
  simp [callsSince, reload_trace]

/-- A `reload` leaves the answers to `Listen`, `Accept` and the listener's `Close` alone. -/
theorem reload_world_rest (srv : ShardServer) (w : World) :
    (reload srv w).world.listenRes = w.listenRes ∧
    (reload srv w).world.acceptRes = w.acceptRes ∧
    (reload srv w).world.sockCloseRes = w.sockCloseRes := by
  unfold reload
  cases hdb : srv.db with
  | none =>
    simp only [World.openDB]
    cases h2 : (w.openDBRes 0) with
    | mk a b => cases b <;> simp [Outcome.world, World.emit]
  | some h =>
    simp only [World.dbClose]
    cases hc : w.dbCloseRes 0 with
    | none =>
      simp only [World.openDB]
      cases h2 : (w.openDBRes 0) with
      | mk a b => cases b <;> simp [Outcome.world, World.emit]
    | some e =>
      simp only [World.openDB, World.emit]
      cases h2 : (w.openDBRes 0) with
      | mk a b => cases b <;> simp [Outcome.world]

/-- With a handle in place, the calls of `reload` contain exactly one `Close`, and it is
on that handle. -/
theorem reloadCalls_close_once (srv : ShardServer) (w : World) (h : DB) (hdb : srv.db = some h) :
    (reloadCalls srv w).count (Event.dbClose h) = 1 ∧
    (reloadCalls srv w).countP Event.isDBClose = 1 := by
  unfold reloadCalls
  rw [hdb]
  cases w.dbCloseRes 0 <;> cases (w.openDBRes 0).2 <;>
    simp [List.count_cons, List.countP_cons, Event.isDBClose]

/-- C3: one `reload` calls `Close` on the previous handle exactly once when `srv.db` is
non-nil and never when it is nil; whatever `Close` answers, it then calls `db.OpenDB`
exactly once, on `dbPath`; and when the open succeeds `reload` returns with `srv.db`
equal to the handle `OpenDB` returned, whatever the old handle was, so that it is not
the old handle when `OpenDB` hands out another one. -/
theorem reload_closes_once_then_opens (srv : ShardServer) (w : World) :
    (∀ h, srv.db = some h →
      (callsSince w (reload srv w).world).count (Event.dbClose h) = 1 ∧
      (callsSince w (reload srv w).world).countP Event.isDBClose = 1) ∧
    (srv.db = none → (callsSince w (reload srv w).world).countP Event.isDBClose = 0) ∧
    (callsSince w (reload srv w).world).countP Event.isOpenDB = 1 ∧
    (callsSince w (reload srv w).world).count (Event.openDB srv.dbPath) = 1 ∧
    ((w.openDBRes 0).2 = none →
      ∃ srv2 w2, reload srv w = Outcome.returned () srv2 w2 ∧ srv2.db = (w.openDBRes 0).1 ∧
        ((w.openDBRes 0).1 ≠ srv.db → srv2.db ≠ srv.db)) := by
  rw [reload_callsSince]
  refine ⟨?_, ?_, ?_, ?_, ?_⟩
  · intro h hdb
    exact reloadCalls_close_once srv w h hdb
  · intro hdb
    unfold reloadCalls
    rw [hdb]
    cases (w.openDBRes 0).2 <;> simp [List.countP_cons, Event.isDBClose]
  · unfold reloadCalls
    cases srv.db <;> cases w.dbCloseRes 0 <;> cases (w.openDBRes 0).2 <;>
      simp [List.countP_cons, Event.isOpenDB]
  · unfold reloadCalls
    cases srv.db <;> cases w.dbCloseRes 0 <;> cases (w.openDBRes 0).2 <;>
      simp [List.count_cons]
  · intro hopen
    rw [reload_eq, hopen]
    exact ⟨_, _, rfl, rfl, fun h => h⟩

/-- Witness for C3: a server holding handle 1 reloads in a world whose `Close` fails and
whose `OpenDB` hands out handle 2; and a fresh server, with no handle, reloads without
any `Close`. -/
theorem reload_closes_once_then_opens_witness :
    (callsSince World.closeFails
      (reload { NewServer 0 1 "/ws" with db := some ⟨1⟩ } World.closeFails).world).count
        (Event.dbClose ⟨1⟩) = 1 ∧
    (∃ srv2 w2,
      reload { NewServer 0 1 "/ws" with db := some ⟨1⟩ } World.closeFails =
        Outcome.returned () srv2 w2 ∧ srv2.db = some ⟨2⟩ ∧ srv2.db ≠ some ⟨1⟩) ∧
    (callsSince (World.script ⟨2⟩ ⟨7⟩ ⟨9⟩ 0)
      (reload (NewServer 0 1 "/ws") (World.script ⟨2⟩ ⟨7⟩ ⟨9⟩ 0)).world).countP
        Event.isDBClose = 0 :=
  ⟨((reload_closes_once_then_opens { NewServer 0 1 "/ws" with db := some ⟨1⟩ }
      World.closeFails).1 ⟨1⟩ rfl).1,
   ((reload_closes_once_then_opens { NewServer 0 1 "/ws" with db := some ⟨1⟩ }
      World.closeFails).2.2.2.2 rfl).imp
      fun _ h => h.imp fun _ h2 => ⟨h2.1, h2.2.1, h2.2.2 (by decide)⟩,
   (reload_closes_once_then_opens (NewServer 0 1 "/ws")
      (World.script ⟨2⟩ ⟨7⟩ ⟨9⟩ 0)).2.1 rfl⟩

/-- C4: `reload` panics exactly when `db.OpenDB(dbPath)` fails, and the panic value is the
open error; when the open succeeds it returns whatever `Close` on the old handle
answered; and in a `reload` that panics the schema is left as it was and `refresh` is
not called. -/
theorem reload_panics_iff_open_fails (srv : ShardServer) (w : World) :
    (∀ e, (∃ srv2 w2, reload srv w = Outcome.panicked (PanicValue.err e) srv2 w2) ↔
      (w.openDBRes 0).2 = some e) ∧
    ((reload srv w).isPanic = true ↔ (w.openDBRes 0).2 ≠ none) ∧
    ((w.openDBRes 0).2 = none → ∃ srv2 w2, reload srv w = Outcome.returned () srv2 w2) ∧
    ((reload srv w).isPanic = true →
      (reload srv w).srv.schema = srv.schema ∧
      (callsSince w (reload srv w).world).countP Event.isSchemaRefresh = 0) := by
  refine ⟨?_, ?_, ?_, ?_⟩
  · intro e
    rw [reload_eq]
    cases h : (w.openDBRes 0).2 with
    | none => simp
    | some e2 =>
      constructor
      · rintro ⟨srv2, w2, heq⟩
        simp only [Outcome.panicked.injEq, PanicValue.err.injEq] at heq
        rw [heq.1]
      · intro he
        simp only [Option.some.injEq] at he
        rw [he]
        exact ⟨_, _, rfl⟩
  · rw [reload_eq]
    cases h : (w.openDBRes 0).2 <;> simp [Outcome.isPanic]
  · intro hopen
    rw [reload_eq, hopen]
    exact ⟨_, _, rfl⟩
  · intro hp
    rw [reload_callsSince]
    rw [reload_eq] at hp ⊢
    cases h : (w.openDBRes 0).2 with
    | none => rw [h] at hp; simp [Outcome.isPanic] at hp
    | some e =>
      refine ⟨by simp [Outcome.srv], ?_⟩
      unfold reloadCalls
      rw [h]
      cases srv.db <;> cases w.dbCloseRes 0 <;>
        simp [List.countP_cons, Event.isSchemaRefresh]

/-- Witness for C4: `Close` on the old handle fails, the open succeeds, `reload` returns;
and in a world whose open fails `reload` panics with the schema untouched. -/
theorem reload_panics_iff_open_fails_witness :
    (∃ srv2 w2,
      reload { NewServer 0 1 "/ws" with db := some ⟨1⟩ } World.closeFails =
        Outcome.returned () srv2 w2) ∧
    (reload (NewServer 0 1 "/ws") World.openFails).srv.schema = (NewServer 0 1 "/ws").schema :=
  ⟨(reload_panics_iff_open_fails { NewServer 0 1 "/ws" with db := some ⟨1⟩ }
      World.closeFails).2.2.1 rfl,
   ((reload_panics_iff_open_fails (NewServer 0 1 "/ws") World.openFails).2.2.2 rfl).1⟩

/-- C5: whenever `db.OpenDB` succeeds, `reload` returns and the schema revision after it
is strictly greater than the revision before the call (`Schema.refresh` as the
specification describes it). -/
theorem reload_revision_increases (srv : ShardServer) (w : World)
    (hopen : (w.openDBRes 0).2 = none) :
    ∃ srv2 w2, reload srv w = Outcome.returned () srv2 w2 ∧
      srv.schema.rev < srv2.schema.rev := by
  rw [reload_eq, hopen]
  exact ⟨_, _, rfl, by simp [Schema.refresh]⟩

/-- Witness for C5: a fresh server (revision 0) reloads to a greater revision. -/
theorem reload_revision_increases_witness :
    ∃ srv2 w2, reload (NewServer 0 1 "/ws") (World.script ⟨2⟩ ⟨7⟩ ⟨9⟩ 0) =
        Outcome.returned () srv2 w2 ∧
      (NewServer 0 1 "/ws").schema.rev < srv2.schema.rev :=
  reload_revision_increases (NewServer 0 1 "/ws") (World.script ⟨2⟩ ⟨7⟩ ⟨9⟩ 0) rfl

/-- The world `reload` leaves depends on the server only through `db` and `dbPath`. -/
theorem reload_world_congr (srv srv2 : ShardServer) (w : World)
    (hdb : srv.db = srv2.db) (hpath : srv.dbPath = srv2.dbPath) :
    (reload srv w).world = (reload srv2 w).world := by
  unfold reload
  rw [hdb, hpath]
  cases srv2.db with
  | none =>
    simp only [World.openDB]
    cases h2 : (w.openDBRes 0) with
    | mk a b => cases b <;> simp [Outcome.world, World.emit]
  | some h =>
    simp only [World.dbClose]
    cases hc : w.dbCloseRes 0 with
    | none =>
      simp only [World.openDB]
      cases h2 : (w.openDBRes 0) with
      | mk a b => cases b <;> simp [Outcome.world, World.emit]
    | some e =>
      simp only [World.openDB, World.emit]
      cases h2 : (w.openDBRes 0) with
      | mk a b => cases b <;> simp [Outcome.world]

/-- C9: `reload` neither reads nor writes `pendingTransactions` or `maintByClient`: on two
servers that differ only in these fields it ends the same way in the same world (same
calls, same answers) and leaves both fields as they were; with a handle in place and
transactions pending it still closes that handle and installs the one `OpenDB` returned.
In `Run` the call of `reload` receives the server as `Run` received it, which for a
server fresh from `NewServer` has `pendingTransactions = 0` and `maintByClient = 0`. -/
theorem reload_ignores_transaction_state (srv : ShardServer) (w : World) (pt : Int) (mc : Nat) :
    reload { srv with pendingTransactions := pt, maintByClient := mc } w =
      (reload srv w).mapSrv (fun s => { s with pendingTransactions := pt, maintByClient := mc }) ∧
    (reload srv w).srv.pendingTransactions = srv.pendingTransactions ∧
    (reload srv w).srv.maintByClient = srv.maintByClient ∧
    (∀ h, srv.db = some h → 0 < srv.pendingTransactions → (w.openDBRes 0).2 = none →
      (callsSince w (reload srv w).world).count (Event.dbClose h) = 1 ∧
      (reload srv w).srv.db = (w.openDBRes 0).1) ∧
    (∀ fuel rank nProcs workspace,
      Run fuel (NewServer rank nProcs workspace) w =
        runAfterReload fuel (reload (NewServer rank nProcs workspace)
          (w.emit (Event.osRemove (NewServer rank nProcs workspace).sockPath))) ∧
      (NewServer rank nProcs workspace).pendingTransactions = 0 ∧
      (NewServer rank nProcs workspace).maintByClient = 0) := by
  refine ⟨?_, ?_, ?_, ?_, ?_⟩
  · have hw : (reload { srv with pendingTransactions := pt, maintByClient := mc } w).world =
        (reload srv w).world := reload_world_congr _ _ w rfl rfl
    rw [reload_eq, hw, reload_eq srv w]
    cases (w.openDBRes 0).2 <;> rfl
  · rw [reload_eq]
    cases (w.openDBRes 0).2 <;> rfl
  · rw [reload_eq]
    cases (w.openDBRes 0).2 <;> rfl
  · intro h hdb _ hopen
    rw [reload_callsSince]
    refine ⟨(reloadCalls_close_once srv w h hdb).1, ?_⟩
    rw [reload_eq, hopen]
    rfl
  · intro fuel rank nProcs workspace
    exact ⟨rfl, rfl, rfl⟩

/-- Witness for C9: a server with handle 1 and three pending transactions reloads; handle
1 is closed once and handle 2 is installed. -/
theorem reload_ignores_transaction_state_witness :
    (callsSince (World.script ⟨2⟩ ⟨7⟩ ⟨9⟩ 0)
        (reload { NewServer 0 1 "/ws" with db := some ⟨1⟩, pendingTransactions := 3 }
          (World.script ⟨2⟩ ⟨7⟩ ⟨9⟩ 0)).world).count (Event.dbClose ⟨1⟩) = 1 ∧
    (reload { NewServer 0 1 "/ws" with db := some ⟨1⟩, pendingTransactions := 3 }
        (World.script ⟨2⟩ ⟨7⟩ ⟨9⟩ 0)).srv.db = some ⟨2⟩ :=
  (reload_ignores_transaction_state
    { NewServer 0 1 "/ws" with db := some ⟨1⟩, pendingTransactions := 3 }
    (World.script ⟨2⟩ ⟨7⟩ ⟨9⟩ 0) 0 0).2.2.2.1 ⟨1⟩ rfl (by decide) rfl

/-! ## `Run` -/

/-- When the open succeeds, `reload` returns the server with the new handle and the
refreshed schema, in a world that differs by the calls of `reload` only. -/
theorem reload_of_open_ok (srv : ShardServer) (w : World) (hopen : (w.openDBRes 0).2 = none) :
    ∃ w2, reload srv w =
        Outcome.returned ()
          { srv with db := (w.openDBRes 0).1, schema := srv.schema.refresh (w.openDBRes 0).1 }
          w2 ∧
      w2.listenRes = w.listenRes ∧ w2.acceptRes = w.acceptRes ∧
      w2.trace = w.trace ++ reloadCalls srv w := by
  have h := reload_eq srv w
  rw [hopen] at h
  have h1 := reload_world_rest srv w
  exact ⟨(reload srv w).world, h, h1.1, h1.2.1, reload_trace srv w⟩

/-- When `db.OpenDB` fails, `Run` ends in the panic of `reload`. -/
theorem Run_open_fails (fuel : Nat) (srv : ShardServer) (w : World) (e : Error)
    (hopen : (w.openDBRes 0).2 = some e) :
    ∃ srv2 w2, Run fuel srv w = Outcome.panicked (PanicValue.err e) srv2 w2 := by
  have h := reload_eq srv (w.emit (Event.osRemove srv.sockPath))
  have h2 : ((w.emit (Event.osRemove srv.sockPath)).openDBRes 0).2 = some e := hopen
  rw [h2] at h
  unfold Run
  rw [h]
  exact ⟨_, _, rfl⟩

/-- When the open succeeds and the bind fails with `e`, `Run` returns `e`. -/
theorem Run_bind_fails (fuel : Nat) (srv : ShardServer) (w : World) (e : Error)
    (hopen : (w.openDBRes 0).2 = none) (hbind : w.listenRes 0 = Except.error e) :
    ∃ w2, Run fuel srv w =
      Outcome.returned (some e)
        { srv with db := (w.openDBRes 0).1, schema := srv.schema.refresh (w.openDBRes 0).1,
                   srvSock := none } w2 := by
  obtain ⟨w1, h, hl, _, _⟩ := reload_of_open_ok srv (w.emit (Event.osRemove srv.sockPath)) hopen
  unfold Run
  rw [h]
  have h2 : w1.listenRes 0 = Except.error e := by rw [hl]; exact hbind
  simp only [runAfterReload, World.netListen, h2]
  exact ⟨_, rfl⟩

/-- When the open and the bind succeed, `Run` is the accept loop on the reloaded server
with the new listener, in a world whose `Accept` answers are untouched. -/
theorem Run_bind_ok (fuel : Nat) (srv : ShardServer) (w : World) (l : Listener)
    (hopen : (w.openDBRes 0).2 = none) (hbind : w.listenRes 0 = Except.ok l) :
    ∃ w2, Run fuel srv w =
        acceptLoop fuel
          { srv with db := (w.openDBRes 0).1, schema := srv.schema.refresh (w.openDBRes 0).1,
                     srvSock := some l } w2 ∧
      w2.acceptRes = w.acceptRes ∧
      w2.trace = w.trace ++ (Event.osRemove srv.sockPath :: reloadCalls srv w ++
        [Event.netListen "unix" srv.sockPath, Event.noticef "Server %d: is listening on %s"]) := by
  obtain ⟨w1, h, hl, ha, ht⟩ := reload_of_open_ok srv (w.emit (Event.osRemove srv.sockPath)) hopen
  unfold Run
  rw [h]
  have h2 : w1.listenRes 0 = Except.ok l := by rw [hl]; exact hbind
  simp only [runAfterReload, World.netListen, h2]
  refine ⟨_, rfl, ?_, ?_⟩
  · simp only [World.emit]
    exact ha
  · have : reloadCalls srv (w.emit (Event.osRemove srv.sockPath)) = reloadCalls srv w := rfl
    rw [this] at ht
    simp [World.emit, ht]

/-- The accept loop returns only a nil error, and changes no field of the server other
than `clientIDSeq`. -/
theorem acceptLoop_returned (fuel : Nat) :
    ∀ (srv : ShardServer) (w : World) (v : Option Error) (srv2 : ShardServer) (w2 : World),
      acceptLoop fuel srv w = Outcome.returned v srv2 w2 →
        v = none ∧ srv2 = { srv with clientIDSeq := srv2.clientIDSeq } := by
  induction fuel with
  | zero => intro srv w v srv2 w2 h; simp [acceptLoop] at h
  | succ n ih =>
    intro srv w v srv2 w2 h
    unfold acceptLoop at h
    split at h
    · simp at h
    · simp only [World.accept] at h
      split at h
      · simp only [Outcome.returned.injEq] at h
        exact ⟨h.1.symm, by rw [← h.2.1]⟩
      · obtain ⟨hv, hsrv⟩ := ih _ _ _ _ _ h
        exact ⟨hv, by rw [hsrv]⟩

/-- The accept loop with `Accept` succeeding `k` times and then failing, and fuel for
more than `k` turns: it returns nil after `k + 1` calls of `Accept`, having created `k`
workers whose ids continue the sequence from `srv.clientIDSeq`. -/
theorem acceptLoop_run (k : Nat) :
    ∀ (fuel : Nat) (srv : ShardServer) (w : World) (l : Listener),
      srv.srvSock = some l →
      (∀ i, i < k → ∃ c, w.acceptRes i = Except.ok c) →
      (∃ e, w.acceptRes k = Except.error e) →
      k < fuel →
      ∃ srv2 w2 evs,
        acceptLoop fuel srv w = Outcome.returned none srv2 w2 ∧
        w2.trace = w.trace ++ evs ∧
        evs.countP Event.isAccept = k + 1 ∧
        (workersOf evs).map (fun x => x.id) =
          (List.range k).map (fun j => (srv.clientIDSeq + (j + 1)) % 2 ^ 64) ∧
        (0 < k → srv2.clientIDSeq = (srv.clientIDSeq + k) % 2 ^ 64) ∧
        (k = 0 → srv2.clientIDSeq = srv.clientIDSeq) := by
  induction k with
  | zero =>
    intro fuel srv w l hs _ hfail hfuel
    obtain ⟨e, he⟩ := hfail
    obtain ⟨n, rfl⟩ : ∃ n, fuel = n + 1 := ⟨fuel - 1, by omega⟩
    refine ⟨srv, (w.accept l).2.emit (Event.noticef "Server %d: is closing down - %v"),
      [Event.accept l, Event.noticef "Server %d: is closing down - %v"], ?_, ?_, ?_, ?_, ?_, ?_⟩
    · unfold acceptLoop
      rw [hs]
      simp only [World.accept, he]
    · simp [World.emit, World.accept]
    · simp [List.countP_cons, Event.isAccept]
    · simp [workersOf]
    · intro h; omega
    · intro _; rfl
  | succ k ih =>
    intro fuel srv w l hs hok hfail hfuel
    obtain ⟨n, rfl⟩ : ∃ n, fuel = n + 1 := ⟨fuel - 1, by omega⟩
    obtain ⟨c, hc⟩ := hok 0 (by omega)
    obtain ⟨srv2, w2, evs, hrun, htr, hcnt, hids, hpos, hzero⟩ :=
      ih n { srv with clientIDSeq := addUint64 srv.clientIDSeq 1 }
        ((w.accept l).2.emit (Event.goWorkerRun
          { id := addUint64 srv.clientIDSeq 1, sock := c, pendingTransaction := false,
            pendingMaintenance := false })) l hs
        (fun i hi => hok (i + 1) (by omega)) hfail (by omega)
    refine ⟨srv2, w2, Event.accept l :: Event.goWorkerRun
          { id := addUint64 srv.clientIDSeq 1, sock := c, pendingTransaction := false,
            pendingMaintenance := false } :: evs, ?_, ?_, ?_, ?_, ?_, ?_⟩
    · rw [← hrun]
      conv_lhs => unfold acceptLoop
      rw [hs]
      simp only [World.accept, hc]
    · rw [htr]
      simp [World.emit, World.accept]
    · simp [List.countP_cons, Event.isAccept, hcnt]
    · simp only [workersOf, List.filterMap_cons, List.map_cons] at hids ⊢
      rw [hids, List.range_succ_eq_map, List.map_cons, List.map_map]
      simp only [addUint64, List.cons.injEq, Nat.zero_add, true_and]
      apply List.map_congr_left
      intro j _
      simp only [Function.comp, Nat.succ_eq_add_one]
      rw [Nat.add_mod, Nat.mod_mod, ← Nat.add_mod]
      congr 1
      omega
    · intro _
      rcases Nat.eq_zero_or_pos k with hk | hk
      · rw [hzero hk, hk]
        simp [addUint64]
      · rw [hpos hk]
        simp only [addUint64]
        rw [Nat.add_mod, Nat.mod_mod, ← Nat.add_mod]
        congr 1
        omega
    · intro h; omega

/-- A `reload` makes no call of `Accept` and starts no worker. -/
theorem reloadCalls_no_accept (srv : ShardServer) (w : World) :
    (reloadCalls srv w).countP Event.isAccept = 0 ∧ workersOf (reloadCalls srv w) = [] := by
  unfold reloadCalls
  cases srv.db <;> cases w.dbCloseRes 0 <;> cases (w.openDBRes 0).2 <;>
    simp [List.countP_cons, Event.isAccept, workersOf]

/-- The run of `Run` with the open and the bind succeeding and `Accept` succeeding `k` times before
it fails: the result, the calls of `Accept` and the workers created. -/
theorem Run_accepts (fuel : Nat) (srv : ShardServer) (w : World) (l : Listener) (k : Nat)
    (hopen : (w.openDBRes 0).2 = none) (hbind : w.listenRes 0 = Except.ok l)
    (hok : ∀ i, i < k → ∃ c, w.acceptRes i = Except.ok c)
    (hfail : ∃ e, w.acceptRes k = Except.error e) (hfuel : k < fuel) :
    ∃ srv2 w2, Run fuel srv w = Outcome.returned none srv2 w2 ∧
      (callsSince w w2).countP Event.isAccept = k + 1 ∧
      (workersOf (callsSince w w2)).map (fun x => x.id) =
        (List.range k).map (fun j => (srv.clientIDSeq + (j + 1)) % 2 ^ 64) ∧
      srv2.shutdown = srv.shutdown ∧
      (0 < k → srv2.clientIDSeq = (srv.clientIDSeq + k) % 2 ^ 64) ∧
      (k = 0 → srv2.clientIDSeq = srv.clientIDSeq) ∧
      Event.netListen "unix" srv.sockPath ∈ callsSince w w2 := by
  obtain ⟨w1, hrun, hacc, htr⟩ := Run_bind_ok fuel srv w l hopen hbind
  obtain ⟨srv2, w2, evs, hloop, htr2, hcnt, hids, hpos, hzero⟩ :=
    acceptLoop_run k fuel
      { srv with db := (w.openDBRes 0).1, schema := srv.schema.refresh (w.openDBRes 0).1,
                 srvSock := some l } w1 l rfl
      (by rw [hacc]; exact hok) (by rw [hacc]; exact hfail) hfuel
  have hsrv := (acceptLoop_returned fuel _ _ _ _ _ hloop).2
  have hcalls : callsSince w w2 = (Event.osRemove srv.sockPath :: reloadCalls srv w ++
      [Event.netListen "unix" srv.sockPath, Event.noticef "Server %d: is listening on %s"]) ++
      evs := by
    simp [callsSince, htr2, htr]
  obtain ⟨hna, hnw⟩ := reloadCalls_no_accept srv w
  refine ⟨srv2, w2, by rw [hrun, hloop], ?_, ?_, ?_, hpos, hzero, ?_⟩
  rotate_left 3
  · rw [hcalls]
    simp
  · rw [hcalls]
    simp [List.countP_cons, List.countP_append, Event.isAccept, hna, hcnt]
  · rw [hcalls, ← hids]
    have : ∀ a b : List Event, workersOf (a ++ b) = workersOf a ++ workersOf b := by
      intro a b; simp [workersOf, List.filterMap_append]
    rw [this]
    have h0 : workersOf (Event.osRemove srv.sockPath :: reloadCalls srv w ++
        [Event.netListen "unix" srv.sockPath,
         Event.noticef "Server %d: is listening on %s"]) = [] := by
      have h1 : workersOf (Event.osRemove srv.sockPath :: reloadCalls srv w) = [] := by
        simpa [workersOf] using hnw
      rw [this, h1]
      simp [workersOf]
    rw [h0]
    rfl
  · rw [hsrv]

/-- C1: `Run` returns a non-nil error `e` exactly when `net.Listen` is reached (the open
in `reload` succeeded) and fails with `e`; and when the bind succeeds and `Accept`
succeeds `k` times and then fails with any error, `Run` (given fuel for more than `k`
turns of the loop) returns nil right after the `k + 1`-th call of `Accept`, for either
value of the `shutdown` flag, which it leaves as it was. -/
theorem Run_error_iff_bind_fails (fuel : Nat) (srv : ShardServer) (w : World) :
    (∀ e, (∃ srv2 w2, Run fuel srv w = Outcome.returned (some e) srv2 w2) ↔
      ((w.openDBRes 0).2 = none ∧ w.listenRes 0 = Except.error e)) ∧
    (∀ l k e, (w.openDBRes 0).2 = none → w.listenRes 0 = Except.ok l →
      (∀ i, i < k → ∃ c, w.acceptRes i = Except.ok c) → w.acceptRes k = Except.error e →
      k < fuel →
      ∃ srv2 w2, Run fuel srv w = Outcome.returned none srv2 w2 ∧
        Event.netListen "unix" srv.sockPath ∈ callsSince w w2 ∧
        (callsSince w w2).countP Event.isAccept = k + 1 ∧
        srv2.shutdown = srv.shutdown) := by
  constructor
  · intro e
    constructor
    · rintro ⟨srv2, w2, hrun⟩
      cases hopen : (w.openDBRes 0).2 with
      | some e2 =>
        obtain ⟨s3, w3, h3⟩ := Run_open_fails fuel srv w e2 hopen
        rw [h3] at hrun
        simp at hrun
      | none =>
        cases hbind : w.listenRes 0 with
        | error e2 =>
          obtain ⟨w3, h3⟩ := Run_bind_fails fuel srv w e2 hopen hbind
          rw [h3] at hrun
          simp only [Outcome.returned.injEq, Option.some.injEq] at hrun
          rw [hrun.1]
          exact ⟨rfl, rfl⟩
        | ok l =>
          obtain ⟨w3, h3, _, _⟩ := Run_bind_ok fuel srv w l hopen hbind
          rw [h3] at hrun
          have := (acceptLoop_returned fuel _ _ _ _ _ hrun).1
          simp at this
    · rintro ⟨hopen, hbind⟩
      obtain ⟨w3, h3⟩ := Run_bind_fails fuel srv w e hopen hbind
      exact ⟨_, _, h3⟩
  · intro l k e hopen hbind hok hfail hfuel
    obtain ⟨srv2, w2, hrun, hcnt, _, hsd, _, _, hl⟩ :=
      Run_accepts fuel srv w l k hopen hbind hok ⟨e, hfail⟩ hfuel
    exact ⟨srv2, w2, hrun, hl, hcnt, hsd⟩

/-- Witness for C1: a server whose `shutdown` flag is already set runs in a world where
`Accept` succeeds twice and then fails, and `Run` returns nil after three calls of
`Accept`; and in a world where the bind fails `Run` returns the bind error. -/
theorem Run_error_iff_bind_fails_witness :
    (∃ srv2 w2,
      Run 5 { NewServer 0 1 "/ws" with shutdown := true } (World.script ⟨2⟩ ⟨7⟩ ⟨9⟩ 2) =
        Outcome.returned none srv2 w2 ∧
      Event.netListen "unix" "/ws/0_sock" ∈ callsSince (World.script ⟨2⟩ ⟨7⟩ ⟨9⟩ 2) w2 ∧
      (callsSince (World.script ⟨2⟩ ⟨7⟩ ⟨9⟩ 2) w2).countP Event.isAccept = 2 + 1 ∧
      srv2.shutdown = true) ∧
    ∃ srv2 w2, Run 1 (NewServer 0 1 "/ws") World.bindFails =
      Outcome.returned (some ⟨"address already in use"⟩) srv2 w2 :=
  ⟨(Run_error_iff_bind_fails 5 { NewServer 0 1 "/ws" with shutdown := true }
      (World.script ⟨2⟩ ⟨7⟩ ⟨9⟩ 2)).2 ⟨7⟩ 2 ⟨"use of closed network connection"⟩ rfl rfl
      (fun i hi => ⟨⟨9⟩, by simp [World.script, hi]⟩) (by simp [World.script]) (by decide),
   ((Run_error_iff_bind_fails 1 (NewServer 0 1 "/ws") World.bindFails).1
      ⟨"address already in use"⟩).mpr ⟨rfl, rfl⟩⟩

/-- C2: for a server fresh from `NewServer` whose bind succeeds and whose `Accept`
succeeds `k < 2^64` times and then fails, `Run` (given fuel for more than `k` turns)
creates exactly `k` workers, the `j`-th of which has id `j`; so the ids are pairwise
distinct, strictly increasing in accept order and never 0, and `clientIDSeq` is `k` when
`Run` returns. -/
theorem Run_worker_ids (fuel : Nat) (rank nProcs : Int) (workspace : String) (w : World)
    (l : Listener) (k : Nat)
    (hopen : (w.openDBRes 0).2 = none) (hbind : w.listenRes 0 = Except.ok l)
    (hok : ∀ i, i < k → ∃ c, w.acceptRes i = Except.ok c)
    (hfail : ∃ e, w.acceptRes k = Except.error e) (hk : k < 2 ^ 64) (hfuel : k < fuel) :
    ∃ srv2 w2, Run fuel (NewServer rank nProcs workspace) w = Outcome.returned none srv2 w2 ∧
      (workersOf (callsSince w w2)).length = k ∧
      (workersOf (callsSince w w2)).map (fun x => x.id) = List.range' 1 k ∧
      (∀ j, 1 ≤ j → j ≤ k →
        ((workersOf (callsSince w w2)).get? (j - 1)).map (fun x => x.id) = some j) ∧
      ((workersOf (callsSince w w2)).map (fun x => x.id)).Nodup ∧
      ((workersOf (callsSince w w2)).map (fun x => x.id)).Pairwise (fun a b => a < b) ∧
      (∀ x ∈ workersOf (callsSince w w2), x.id ≠ 0) ∧
      srv2.clientIDSeq = k := by
  obtain ⟨srv2, w2, hrun, _, hids, _, hpos, hzero, _⟩ :=
    Run_accepts fuel (NewServer rank nProcs workspace) w l k hopen hbind hok hfail hfuel
  have hids2 : (workersOf (callsSince w w2)).map (fun x => x.id) = List.range' 1 k := by
    rw [hids]
    apply List.ext_getElem
    · simp
    · intro i h1 h2
      simp only [List.length_map, List.length_range] at h1
      simp only [List.getElem_map, List.getElem_range, List.getElem_range', NewServer]
      rw [Nat.mod_eq_of_lt (by omega)]
      omega
  refine ⟨srv2, w2, hrun, ?_, hids2, ?_, ?_, ?_, ?_, ?_⟩
  · have := congrArg List.length hids2
    simpa using this
  · intro j h1 h2
    have h3 : ((workersOf (callsSince w w2)).map (fun x => x.id)).get? (j - 1) = some j := by
      rw [hids2, List.get?_eq_getElem?, List.getElem?_range' _ _ (by omega)]
      congr 1
      omega
    rw [← h3, List.get?_eq_getElem?, List.get?_eq_getElem?, List.getElem?_map]
  · rw [hids2]
    exact List.nodup_range' 1 k
  · rw [hids2]
    exact List.pairwise_lt_range' 1 k
  · intro x hx h0
    have : x.id ∈ (workersOf (callsSince w w2)).map (fun x => x.id) := List.mem_map_of_mem _ hx
    rw [hids2, List.mem_range'_1] at this
    omega
  · rcases Nat.eq_zero_or_pos k with h | h
    · rw [hzero h, h]; rfl
    · rw [hpos h]
      simp only [NewServer, Nat.zero_add]
      exact Nat.mod_eq_of_lt hk

/-- Witness for C2: three connections are accepted before `Accept` fails. -/
theorem Run_worker_ids_witness :
    ∃ srv2 w2, Run 4 (NewServer 0 1 "/ws") (World.script ⟨2⟩ ⟨7⟩ ⟨9⟩ 3) =
        Outcome.returned none srv2 w2 ∧
      (workersOf (callsSince (World.script ⟨2⟩ ⟨7⟩ ⟨9⟩ 3) w2)).map (fun x => x.id) = [1, 2, 3] ∧
      srv2.clientIDSeq = 3 :=
  (Run_worker_ids 4 0 1 "/ws" (World.script ⟨2⟩ ⟨7⟩ ⟨9⟩ 3) ⟨7⟩ 3 rfl rfl
    (fun i hi => ⟨⟨9⟩, by simp [World.script, hi]⟩) ⟨_, by simp [World.script]; rfl⟩
    (by norm_num) (by decide)).imp
    fun _ h => h.imp fun _ h2 => ⟨h2.1, h2.2.2.1, h2.2.2.2.2.2.2.2⟩

/-! ## `Shutdown` -/

/-- The call of `Shutdown` on a server with a bound listener and a free lock, spelled out. -/
theorem Shutdown_bound_eq (srv : ShardServer) (w : World) (l : Listener)
    (hsock : srv.srvSock = some l) (hfree : srv.opLock = false) :
    Shutdown srv w = Outcome.returned () { srv with shutdown := true } (Shutdown srv w).world ∧
    (Shutdown srv w).world.trace =
      w.trace ++ Event.sockClose l ::
        (match w.sockCloseRes 0 with
          | some _ => [Event.noticef "Server %d: failed to close server socket - %v"]
          | none => []) := by
  unfold Shutdown shutdown0
  simp only [hfree, hsock, World.sockClose]
  cases hc : w.sockCloseRes 0 with
  | none =>
    simp only [Bool.false_eq_true, if_false, Outcome.world, Outcome.returned.injEq, true_and,
      and_true]
  | some e =>
    simp only [Bool.false_eq_true, if_false, Outcome.world, Outcome.returned.injEq, true_and,
      and_true, World.emit]
    simp

/-- C6: on a server with a bound listener and a free `opLock`, whatever the listener's
`Close` answers, `Shutdown` returns; the server it leaves is the prior one with
`shutdown = true` and nothing else changed (`opLock` free again; `db`, `schema`,
`clientIDSeq`, `maintByClient`, `pendingTransactions` as before); the only calls it makes
are one `Close` on the listener and, if that failed, one log line; and a second
`Shutdown` returns as well, leaving the same server. -/
theorem Shutdown_frame (srv : ShardServer) (w : World) (l : Listener)
    (hsock : srv.srvSock = some l) (hfree : srv.opLock = false) :
    ∃ w2, Shutdown srv w = Outcome.returned () { srv with shutdown := true } w2 ∧
      callsSince w w2 = Event.sockClose l ::
        (match w.sockCloseRes 0 with
          | some _ => [Event.noticef "Server %d: failed to close server socket - %v"]
          | none => []) ∧
      (callsSince w w2).countP Event.isSockClose = 1 ∧
      (callsSince w w2).countP Event.isDBClose = 0 ∧
      ∃ w3, Shutdown { srv with shutdown := true } w2 =
        Outcome.returned () { srv with shutdown := true } w3 := by
  obtain ⟨h1, h2⟩ := Shutdown_bound_eq srv w l hsock hfree
  refine ⟨(Shutdown srv w).world, h1, ?_, ?_, ?_, ?_⟩
  · simp [callsSince, h2]
  · simp only [callsSince, h2]
    cases w.sockCloseRes 0 <;> simp [List.countP_cons, Event.isSockClose]
  · simp only [callsSince, h2]
    cases w.sockCloseRes 0 <;> simp [List.countP_cons, Event.isDBClose]
  · exact ⟨_, (Shutdown_bound_eq { srv with shutdown := true } (Shutdown srv w).world l
      hsock hfree).1⟩

/-- Witness for C6: a server bound to listener 7 whose `Close` reports an error. -/
theorem Shutdown_frame_witness :
    ∃ w2,
      Shutdown { NewServer 0 1 "/ws" with srvSock := some ⟨7⟩ } World.sockCloseFails =
        Outcome.returned ()
          { NewServer 0 1 "/ws" with srvSock := some ⟨7⟩, shutdown := true } w2 ∧
      callsSince World.sockCloseFails w2 =
        [Event.sockClose ⟨7⟩,
         Event.noticef "Server %d: failed to close server socket - %v"] :=
  (Shutdown_frame { NewServer 0 1 "/ws" with srvSock := some ⟨7⟩ } World.sockCloseFails
      ⟨7⟩ rfl rfl).imp
    fun _ h => ⟨h.1, h.2.1⟩

/-- C10: on a server whose listener is nil and whose `opLock` is free, `Shutdown` panics
with a nil dereference before the flag is set: no call is made, `shutdown` keeps its
value and `opLock` is left held, so that every later `Shutdown` on that server waits for
the lock. A server fresh from `NewServer` and a server for which `Run` returned a bind
error both have a nil listener. -/
theorem Shutdown_unbound_listener (srv : ShardServer) (w : World)
    (hsock : srv.srvSock = none) (hfree : srv.opLock = false) :
    Shutdown srv w = Outcome.panicked PanicValue.nilDereference { srv with opLock := true } w ∧
    ({ srv with opLock := true } : ShardServer).shutdown = srv.shutdown ∧
    (∀ w2, Shutdown { srv with opLock := true } w2 =
      Outcome.blocked { srv with opLock := true } w2) ∧
    (∀ rank nProcs workspace,
      (NewServer rank nProcs workspace).srvSock = none ∧
      (NewServer rank nProcs workspace).opLock = false ∧
      (NewServer rank nProcs workspace).shutdown = false) ∧
    (∀ fuel srv0 w0 e srv2 w2,
      Run fuel srv0 w0 = Outcome.returned (some e) srv2 w2 →
        srv2.srvSock = none ∧ srv2.opLock = srv0.opLock ∧ srv2.shutdown = srv0.shutdown) := by
  refine ⟨?_, rfl, ?_, ?_, ?_⟩
  · unfold Shutdown shutdown0
    simp [hfree, hsock]
  · intro w2
    unfold Shutdown
    simp
  · intro rank nProcs workspace
    exact ⟨rfl, rfl, rfl⟩
  · intro fuel srv0 w0 e srv2 w2 hrun
    cases hopen : (w0.openDBRes 0).2 with
    | some e2 =>
      obtain ⟨s3, w3, h3⟩ := Run_open_fails fuel srv0 w0 e2 hopen
      rw [h3] at hrun
      simp at hrun
    | none =>
      cases hbind : w0.listenRes 0 with
      | error e2 =>
        obtain ⟨w3, h3⟩ := Run_bind_fails fuel srv0 w0 e2 hopen hbind
        rw [h3] at hrun
        simp only [Outcome.returned.injEq] at hrun
        rw [← hrun.2.1]
        exact ⟨rfl, rfl, rfl⟩
      | ok l =>
        obtain ⟨w3, h3, _, _⟩ := Run_bind_ok fuel srv0 w0 l hopen hbind
        rw [h3] at hrun
        have := (acceptLoop_returned fuel _ _ _ _ _ hrun).1
        simp at this

/-- Witness for C10: `Shutdown` on a server fresh from `NewServer`, a second `Shutdown`
after it, and the nil listener left by a `Run` whose bind failed. -/
theorem Shutdown_unbound_listener_witness :
    Shutdown (NewServer 0 1 "/ws") (World.script ⟨2⟩ ⟨7⟩ ⟨9⟩ 0) =
      Outcome.panicked PanicValue.nilDereference { NewServer 0 1 "/ws" with opLock := true }
        (World.script ⟨2⟩ ⟨7⟩ ⟨9⟩ 0) ∧
    Shutdown { NewServer 0 1 "/ws" with opLock := true } (World.script ⟨2⟩ ⟨7⟩ ⟨9⟩ 0) =
      Outcome.blocked { NewServer 0 1 "/ws" with opLock := true } (World.script ⟨2⟩ ⟨7⟩ ⟨9⟩ 0) ∧
    (Run 1 (NewServer 0 1 "/ws")
      World.bindFails).srv.srvSock = none :=
  ⟨(Shutdown_unbound_listener (NewServer 0 1 "/ws") (World.script ⟨2⟩ ⟨7⟩ ⟨9⟩ 0) rfl rfl).1,
   (Shutdown_unbound_listener (NewServer 0 1 "/ws") (World.script ⟨2⟩ ⟨7⟩ ⟨9⟩ 0) rfl rfl).2.2.1
     (World.script ⟨2⟩ ⟨7⟩ ⟨9⟩ 0),
   ((Shutdown_unbound_listener (NewServer 0 1 "/ws") (World.script ⟨2⟩ ⟨7⟩ ⟨9⟩ 0) rfl rfl).2.2.2.2
     1 (NewServer 0 1 "/ws")
     World.bindFails
     ⟨"address already in use"⟩ _ _ rfl).1⟩

/-! ## Maintenance lock -/

/-- A step changes no worker id. -/
theorem maintStep_ids (st : MaintState) (op : MaintOp) :
    (maintStep st op).workers.map (fun x => x.id) = st.workers.map (fun x => x.id) := by
  cases op with
  | claim i =>
    simp only [maintStep]
    cases h : st.workers.get? i with
    | none => rfl
    | some worker =>
      simp only [List.map_set]
      have hid : (claimMaintenance st.srv worker).2.2.id = worker.id := by
        unfold claimMaintenance compareAndSwapUint64
        split <;> rfl
      rw [hid]
      apply List.ext_getElem?
      intro j
      rw [List.getElem?_set]
      split
      · rename_i hij
        subst hij
        rw [List.get?_eq_getElem?] at h
        obtain ⟨hlt, hw⟩ := List.getElem?_eq_some.mp h
        simp [hlt, hw]
      · rfl
  | release i =>
    simp only [maintStep]
    cases h : st.workers.get? i with
    | none => rfl
    | some worker =>
      simp only [List.map_set]
      have hid : (releaseMaintenance st.srv worker).2.id = worker.id := by
        unfold releaseMaintenance
        split <;> rfl
      rw [hid]
      apply List.ext_getElem?
      intro j
      rw [List.getElem?_set]
      split
      · rename_i hij
        subst hij
        rw [List.get?_eq_getElem?] at h
        obtain ⟨hlt, hw⟩ := List.getElem?_eq_some.mp h
        simp [hlt, hw]
      · rfl

/-- One step keeps the invariant, as long as the worker ids are distinct and none is 0. -/
theorem maintStep_ownerIsHolder (st : MaintState) (op : MaintOp)
    (hdistinct : (st.workers.map (fun x => x.id)).Nodup)
    (hnz : 0 ∉ st.workers.map (fun x => x.id))
    (hinv : st.ownerIsHolder) : (maintStep st op).ownerIsHolder := by
  have hidx : ∀ j (a : ShardServerWorker), st.workers.get? j = some a →
      ∃ h : j < st.workers.length, st.workers[j] = a := by
    intro j a h
    rw [List.get?_eq_getElem?] at h
    exact List.getElem?_eq_some.mp h
  cases op with
  | claim i =>
    simp only [maintStep]
    cases h : st.workers.get? i with
    | none => exact hinv
    | some worker =>
      obtain ⟨hi, hwi⟩ := hidx i worker h
      intro j wj hj hp
      simp only [List.get?_eq_getElem?, List.getElem?_set] at hj
      by_cases hm : st.srv.maintByClient = 0
      · simp only [claimMaintenance, compareAndSwapUint64, hm, if_true] at hj ⊢
        by_cases hij : i = j
        · simp only [hij, if_true] at hj
          split at hj
          · simp only [Option.some.injEq] at hj
            rw [← hj]
          · simp at hj
        · simp only [hij, if_false] at hj
          have := hinv j wj (by rw [List.get?_eq_getElem?]; exact hj) hp
          rw [hm] at this
          obtain ⟨hjl, hjw⟩ := List.getElem?_eq_some.mp hj
          exact absurd (List.mem_map.mpr ⟨wj, by rw [← hjw]; exact List.getElem_mem _, this.symm⟩) hnz
      · simp only [claimMaintenance, compareAndSwapUint64, hm, if_false] at hj ⊢
        by_cases hij : i = j
        · simp only [hij, if_true] at hj
          split at hj
          · simp only [Option.some.injEq] at hj
            rw [← hj] at hp ⊢
            exact hinv i worker h hp
          · simp at hj
        · simp only [hij, if_false] at hj
          exact hinv j wj (by rw [List.get?_eq_getElem?]; exact hj) hp
  | release i =>
    simp only [maintStep]
    cases h : st.workers.get? i with
    | none => exact hinv
    | some worker =>
      obtain ⟨hi, hwi⟩ := hidx i worker h
      intro j wj hj hp
      simp only [List.get?_eq_getElem?, List.getElem?_set] at hj
      by_cases hpw : worker.pendingMaintenance = true
      · simp only [releaseMaintenance, hpw, if_true] at hj ⊢
        by_cases hij : i = j
        · simp only [hij, if_true] at hj
          split at hj
          · simp only [Option.some.injEq] at hj
            rw [← hj] at hp
            simp at hp
          · simp at hj
        · simp only [hij, if_false] at hj
          exfalso
          have h1 := hinv j wj (by rw [List.get?_eq_getElem?]; exact hj) hp
          have h2 := hinv i worker h hpw
          obtain ⟨hjl, hjw⟩ := List.getElem?_eq_some.mp hj
          have hi2 : i < (st.workers.map (fun x => x.id)).length := by simpa using hi
          have hj2 : j < (st.workers.map (fun x => x.id)).length := by simpa using hjl
          have heq : (st.workers.map (fun x => x.id))[i] = (st.workers.map (fun x => x.id))[j] := by
            simp only [List.getElem_map, hwi, hjw]
            rw [← h1, ← h2]
          exact hij ((List.Nodup.getElem_inj_iff hdistinct).mp heq)
      · simp only [releaseMaintenance, hpw, if_false] at hj ⊢
        by_cases hij : i = j
        · simp only [hij, if_true] at hj
          split at hj
          · simp only [Option.some.injEq] at hj
            rw [← hj] at hp ⊢
            exact hinv i worker h hp
          · simp at hj
        · simp only [hij, if_false] at hj
          exact hinv j wj (by rw [List.get?_eq_getElem?]; exact hj) hp

/-- Every interleaving keeps the invariant and the worker ids. -/
theorem maintRun_ownerIsHolder (schedule : List MaintOp) :
    ∀ st : MaintState,
      (st.workers.map (fun x => x.id)).Nodup → 0 ∉ st.workers.map (fun x => x.id) →
      st.ownerIsHolder →
      (maintRun schedule st).ownerIsHolder ∧
      (maintRun schedule st).workers.map (fun x => x.id) = st.workers.map (fun x => x.id) := by
  induction schedule with
  | nil => intro st _ _ hinv; exact ⟨hinv, rfl⟩
  | cons op ops ih =>
    intro st hd hnz hinv
    have hids := maintStep_ids st op
    obtain ⟨h1, h2⟩ := ih (maintStep st op) (by rw [hids]; exact hd) (by rw [hids]; exact hnz)
      (maintStep_ownerIsHolder st op hd hnz hinv)
    exact ⟨h1, by rw [← hids]; exact h2⟩

/-- C8, as amended: start with no worker holding a claim, the worker ids distinct and none
of them 0. After every interleaving of claim and release steps: at most one worker holds a
claim; a worker that holds one is the owner recorded in `maintByClient`; a claim attempted
now succeeds only if `maintByClient` is 0, and then no worker holds a claim; and while
`maintByClient` is not 0 every claim fails. -/
theorem maintenance_lock_exclusive (srv : ShardServer) (workers : List ShardServerWorker)
    (schedule : List MaintOp)
    (hidle : ∀ x ∈ workers, x.pendingMaintenance = false)
    (hdistinct : (workers.map (fun x => x.id)).Nodup)
    (hnz : 0 ∉ workers.map (fun x => x.id)) :
    (∀ i j wi wj,
      (maintRun schedule ⟨srv, workers⟩).workers.get? i = some wi →
      (maintRun schedule ⟨srv, workers⟩).workers.get? j = some wj →
      wi.pendingMaintenance = true → wj.pendingMaintenance = true → i = j) ∧
    (∀ i wi, (maintRun schedule ⟨srv, workers⟩).workers.get? i = some wi →
      wi.pendingMaintenance = true →
      (maintRun schedule ⟨srv, workers⟩).srv.maintByClient = wi.id) ∧
    (∀ i wi, (maintRun schedule ⟨srv, workers⟩).workers.get? i = some wi →
      (claimMaintenance (maintRun schedule ⟨srv, workers⟩).srv wi).1 = true →
      (maintRun schedule ⟨srv, workers⟩).srv.maintByClient = 0 ∧
      ∀ x ∈ (maintRun schedule ⟨srv, workers⟩).workers, x.pendingMaintenance = false) ∧
    (∀ i wi, (maintRun schedule ⟨srv, workers⟩).workers.get? i = some wi →
      (maintRun schedule ⟨srv, workers⟩).srv.maintByClient ≠ 0 →
      (claimMaintenance (maintRun schedule ⟨srv, workers⟩).srv wi).1 = false) := by
  have hinit : (⟨srv, workers⟩ : MaintState).ownerIsHolder := by
    intro i worker hi hp
    rw [List.get?_eq_getElem?] at hi
    obtain ⟨hl, hw⟩ := List.getElem?_eq_some.mp hi
    have := hidle worker (by rw [← hw]; exact List.getElem_mem _)
    rw [this] at hp
    simp at hp
  obtain ⟨hinv, hids⟩ := maintRun_ownerIsHolder schedule ⟨srv, workers⟩ hdistinct hnz hinit
  generalize maintRun schedule ⟨srv, workers⟩ = st at hinv hids ⊢
  simp only at hids
  have hd : (st.workers.map (fun x => x.id)).Nodup := by rw [hids]; exact hdistinct
  have hz : 0 ∉ st.workers.map (fun x => x.id) := by rw [hids]; exact hnz
  have hcas : ∀ wi : ShardServerWorker, (claimMaintenance st.srv wi).1 = true →
      st.srv.maintByClient = 0 := by
    intro wi hc
    by_contra hne
    simp [claimMaintenance, compareAndSwapUint64, hne] at hc
  refine ⟨?_, hinv, ?_, ?_⟩
  · intro i j wi wj hi hj hpi hpj
    have h1 := hinv i wi hi hpi
    have h2 := hinv j wj hj hpj
    rw [List.get?_eq_getElem?] at hi hj
    obtain ⟨hil, hiw⟩ := List.getElem?_eq_some.mp hi
    obtain ⟨hjl, hjw⟩ := List.getElem?_eq_some.mp hj
    have hi2 : i < (st.workers.map (fun x => x.id)).length := by simpa using hil
    have hj2 : j < (st.workers.map (fun x => x.id)).length := by simpa using hjl
    have heq : (st.workers.map (fun x => x.id))[i] = (st.workers.map (fun x => x.id))[j] := by
      simp only [List.getElem_map, hiw, hjw]
      rw [← h1, ← h2]
    exact (List.Nodup.getElem_inj_iff hd).mp heq
  · intro i wi _ hc
    have hm := hcas wi hc
    refine ⟨hm, ?_⟩
    intro x hx
    by_contra hp
    have hp2 : x.pendingMaintenance = true := by simpa using hp
    obtain ⟨n, hn, hxn⟩ := List.getElem_of_mem hx
    have := hinv n x (by rw [List.get?_eq_getElem?, List.getElem?_eq_getElem hn, hxn]) hp2
    rw [hm] at this
    exact hz (List.mem_map.mpr ⟨x, hx, this.symm⟩)
  · intro i wi _ hne
    simp [claimMaintenance, compareAndSwapUint64, hne]

/-- Witness for C8 as amended: workers 7 and 9 both try to claim, 7 first; afterwards worker 7 is
the owner, and a further claim by worker 9 fails. -/
theorem maintenance_lock_exclusive_witness :
    (maintRun [MaintOp.claim 0, MaintOp.claim 1]
      ⟨NewServer 0 1 "/ws", [⟨7, ⟨0⟩, false, false⟩, ⟨9, ⟨1⟩, false, false⟩]⟩).srv.maintByClient = 7 ∧
    (claimMaintenance
      (maintRun [MaintOp.claim 0, MaintOp.claim 1]
        ⟨NewServer 0 1 "/ws", [⟨7, ⟨0⟩, false, false⟩, ⟨9, ⟨1⟩, false, false⟩]⟩).srv
      ⟨9, ⟨1⟩, false, false⟩).1 = false :=
  ⟨(maintenance_lock_exclusive (NewServer 0 1 "/ws")
      [⟨7, ⟨0⟩, false, false⟩, ⟨9, ⟨1⟩, false, false⟩] [MaintOp.claim 0, MaintOp.claim 1]
      (by decide) (by decide) (by decide)).2.1 0 ⟨7, ⟨0⟩, false, true⟩ rfl rfl,
   (maintenance_lock_exclusive (NewServer 0 1 "/ws")
      [⟨7, ⟨0⟩, false, false⟩, ⟨9, ⟨1⟩, false, false⟩] [MaintOp.claim 0, MaintOp.claim 1]
      (by decide) (by decide) (by decide)).2.2.2 1 ⟨9, ⟨1⟩, false, false⟩ rfl (by decide)⟩

/-- Counterexample to C8 as stated: two idle workers with the distinct ids 0 and 7. The
claim of worker 0 succeeds and leaves `maintByClient` at 0, so the claim of worker 7
succeeds as well, and after the interleaving `[claim 0, claim 1]` both workers hold a
claim at the same time. Id 0 is the id `Run` assigns when `clientIDSeq` wraps around. -/
theorem maintenance_lock_two_holders_with_id_zero :
    ([⟨0, ⟨0⟩, false, false⟩, ⟨7, ⟨1⟩, false, false⟩] : List ShardServerWorker).map
        (fun x => x.id) = [0, 7] ∧
    ([0, 7] : List Nat).Nodup ∧
    (claimMaintenance (NewServer 0 1 "/ws") ⟨0, ⟨0⟩, false, false⟩).1 = true ∧
    (claimMaintenance
      (maintRun [MaintOp.claim 0]
        ⟨NewServer 0 1 "/ws", [⟨0, ⟨0⟩, false, false⟩, ⟨7, ⟨1⟩, false, false⟩]⟩).srv
      ⟨7, ⟨1⟩, false, false⟩).1 = true ∧
    (maintRun [MaintOp.claim 0, MaintOp.claim 1]
      ⟨NewServer 0 1 "/ws", [⟨0, ⟨0⟩, false, false⟩, ⟨7, ⟨1⟩, false, false⟩]⟩).workers =
      [⟨0, ⟨0⟩, false, true⟩, ⟨7, ⟨1⟩, false, true⟩] ∧
    (maintRun [MaintOp.claim 0, MaintOp.claim 1]
      ⟨NewServer 0 1 "/ws", [⟨0, ⟨0⟩, false, false⟩, ⟨7, ⟨1⟩, false, false⟩]⟩).srv.maintByClient
      = 7 ∧
    addUint64 (2 ^ 64 - 1) 1 = 0 := by
  refine ⟨rfl, by decide, by decide, by decide, by decide, by decide, ?_⟩
  norm_num [addUint64]

end Sharding
